import Mathlib

set_option maxRecDepth 8000

/-!
Verification of the discrete-event manufacturing simulation.

Shallow embedding of the Rust sources (`simulation.rs`, `component.rs`,
`product.rs`, `workstation.rs`, `inspector.rs`, `event.rs`, `main.rs`).
Simulated time values (f64 minutes) are embedded as rationals; the sentinel
`Duration::never()` (f64 infinity) is represented by `none` at its use sites
(the scheduler's minimum selection).  Rust panics (assert!/expect/unwrap)
are embedded as `Option` results, `none` meaning the program aborts.
-/

attribute [local semireducible] Rat.add Rat.sub Rat.mul Rat.inv

namespace Facility4005

/-- Absolute simulated time in minutes (`TimeStamp`). -/
abbrev Time := ℚ

/-- Relative simulated time in minutes (finite `Duration` values). -/
abbrev Dur := ℚ

/-- Value of `TimeStamp::start()`. -/
def timeStampStart : Time := 0

/-- Tolerance `1000.0 * f64::EPSILON` used in the floating-point asserts
(`f64::EPSILON` is exactly `2^-52`). -/
def epsTol : ℚ := 1000 / 2 ^ 52

/-- The three component kinds (the discriminant of the Rust `Component` enum). -/
inductive CKind
  | c1
  | c2
  | c3
deriving DecidableEq

/-- Embedding of `component.rs`: every `Component` variant carries an
inspection duration, optional inspection start, optional inspection end and
optional enqueue time.  The variant tag is the `kind` field. -/
structure Component where
  kind : CKind
  duration : Dur
  insStart : Option Time
  insEnd : Option Time
  enqTime : Option Time
deriving DecidableEq

/-- Embedding of `Component::new` (panics on a number other than 1..3). -/
def Component.mkNew (d : Dur) (n : Nat) : Option Component :=
  match n with
  | 1 => some ⟨.c1, d, none, none, none⟩
  | 2 => some ⟨.c2, d, none, none, none⟩
  | 3 => some ⟨.c3, d, none, none, none⟩
  | _ => none

/-- Embedding of `Component::is_finished`. -/
def Component.is_finished (c : Component) : Bool := c.insEnd.isSome

/-- Embedding of `Component::start_inspecting`. -/
def Component.start_inspecting (c : Component) (ts : Time) : Component :=
  { c with insStart := some ts }

/-- Embedding of `Component::finish_inspecting`: asserts the component is not
already finished, asserts `start + duration - now <= 1000 * EPSILON`
(note the assert is one-sided), then records the end time. -/
def Component.finish_inspecting (c : Component) (now : Time) : Option Component :=
  match c.insEnd with
  | some _ => none
  | none =>
    match c.insStart with
    | none => none
    | some s =>
      if s + c.duration - now ≤ epsTol then some { c with insEnd := some now } else none

/-- Embedding of `Component::set_enqueued`: asserts the component was finished,
then records the enqueue time. -/
def Component.set_enqueued (c : Component) (now : Time) : Option Component :=
  match c.insEnd with
  | none => none
  | some _ => some { c with enqTime := some now }

/-- Embedding of `product.rs`: a product is one or two components plus the
assembly timestamp. -/
inductive Product
  | P1 (c1 : Component) (ts : Time)
  | P2 (c1 c2 : Component) (ts : Time)
  | P3 (c1 c3 : Component) (ts : Time)
deriving DecidableEq

/-- Embedding of `Product::from` together with the constructor asserts of
`new_p1` / `new_p2` / `new_p3` (component kinds and finishedness). -/
def Product.make (first : Component) (second : Option Component) (ts : Time) : Option Product :=
  match second with
  | none =>
    if first.kind = .c1 ∧ first.is_finished then some (.P1 first ts) else none
  | some c =>
    match c.kind with
    | .c2 =>
      if first.kind = .c1 ∧ first.is_finished ∧ c.is_finished then
        some (.P2 first c ts)
      else none
    | .c3 =>
      if first.kind = .c1 ∧ first.is_finished ∧ c.is_finished then
        some (.P3 first c ts)
      else none
    | .c1 => none

/-- Embedding of `Product::timestamp`. -/
def Product.timestamp : Product → Time
  | .P1 _ ts => ts
  | .P2 _ _ ts => ts
  | .P3 _ _ ts => ts

/-- One workstation buffer: two slots, each holding at most one component. -/
abbrev Buffer := Option Component × Option Component

/-- Embedding of `workstation.rs` `Type`: workstation 1 has a single C1
buffer, workstations 2 and 3 have a C1 buffer plus a C2 (resp. C3) buffer. -/
inductive WSType
  | W1 (buf : Buffer)
  | W2 (buf1 buf2 : Buffer)
  | W3 (buf1 buf2 : Buffer)
deriving DecidableEq

/-- Discriminant of `WSType` (the Rust `PartialEq for Type` compares only
discriminants). -/
inductive WSKind
  | w1
  | w2
  | w3
deriving DecidableEq

/-- Discriminant projection. -/
def WSType.wkind : WSType → WSKind
  | .W1 _ => .w1
  | .W2 _ _ => .w2
  | .W3 _ _ => .w3

/-- Embedding of `Type::can_work`: only the FIRST slot of every required
buffer is inspected. -/
def WSType.can_work : WSType → Bool
  | .W1 buf => buf.1.isSome
  | .W2 buf1 buf2 => buf1.1.isSome && buf2.1.isSome
  | .W3 buf1 buf2 => buf1.1.isSome && buf2.1.isSome

/-- Slot membership by kind (the Rust `Component` `==` compares only the
variant discriminant). -/
def bufContainsKind (buf : Buffer) (k : CKind) : Bool :=
  (match buf.1 with
   | some c => c.kind == k
   | none => false) ||
  (match buf.2 with
   | some c => c.kind == k
   | none => false)

/-- Embedding of `Type::contains` (kind-level membership). -/
def WSType.contains (t : WSType) (k : CKind) : Bool :=
  match t with
  | .W1 buf => bufContainsKind buf k
  | .W2 buf1 buf2 => bufContainsKind buf1 k || bufContainsKind buf2 k
  | .W3 buf1 buf2 => bufContainsKind buf1 k || bufContainsKind buf2 k

/-- Embedding of `Type::present_count`. -/
def presentCount (buf : Buffer) : Nat :=
  (match buf.1 with
   | some _ => 1
   | none => 0) +
  (match buf.2 with
   | some _ => 1
   | none => 0)

/-- Embedding of `Type::c1_in_waiting`. -/
def WSType.c1_in_waiting : WSType → Nat
  | .W1 buf => presentCount buf
  | .W2 buf1 _ => presentCount buf1
  | .W3 buf1 _ => presentCount buf1

/-- Embedding of `Type::matching_count` (panics when asked for a non-C1
count on workstation 1). -/
def WSType.matching_count (t : WSType) (k : CKind) : Option Nat :=
  match k with
  | .c1 => some t.c1_in_waiting
  | _ =>
    match t with
    | .W1 _ => none
    | .W2 _ buf2 => some (presentCount buf2)
    | .W3 _ buf2 => some (presentCount buf2)

/-- Embedding of `event.rs` `EnqueueResult` as constructed in
`Workstation::enqueue` (flag whether inspector 1 enqueued, the component,
the workstation type snapshot after insertion, the time, and whether the
workstation is already running an assembly). -/
inductive EnqueueResult
  | CouldEnqueue (ins1 : Bool) (c : Component) (ws : WSType) (ts : Time) (working : Bool)
  | Fail
deriving DecidableEq

/-- Embedding of `event.rs` `FacilityEvent`. -/
inductive FacilityEvent
  | Blocked (ins1 : Bool) (c : Component)
  | Unblocked (ins1 : Bool) (ts : Time)
  | Placement (ins1 : Bool) (c : Component) (ws : WSType) (ts : Time)
  | Assembled (p : Product) (ws : WSType)
  | WorkstationStarted (ws : WSType) (ts : Time)
  | StartedInspection (ins1 : Bool) (c : Component)
  | FinishedInspection (ins1 : Bool) (c : Component)
  | SimulationStarted
deriving DecidableEq

/-- Embedding of the `Workstation` struct. -/
structure Workstation where
  assembly_durations : List Dur
  current_duration : Option (Time × Dur)
  ws_type : WSType
  products : List Product
  buffer_states : List (Time × WSType)
deriving DecidableEq

/-- Embedding of `Workstation::new`. -/
def Workstation.mkNew (t : WSType) (ds : List Dur) : Workstation :=
  ⟨ds, none, t, [], [(timeStampStart, t)]⟩

/-- Embedding of `Workstation::is_working`. -/
def Workstation.is_working (w : Workstation) : Bool := w.current_duration.isSome

/-- Embedding of `Workstation::c1_in_waiting`. -/
def Workstation.c1_in_waiting (w : Workstation) : Nat := w.ws_type.c1_in_waiting

/-- Embedding of `Workstation::matching_count`. -/
def Workstation.matching_count (w : Workstation) (k : CKind) : Option Nat :=
  w.ws_type.matching_count k

/-- Embedding of the `add_to_buffer` closure in `Workstation::enqueue`: the
component (with its enqueue time stamped) goes into the first slot when that
is free, otherwise into the second; a buffer whose second slot is occupied
rejects. -/
def add_to_buffer (buf : Buffer) (c : Component) (now : Time) : Bool × Buffer :=
  let cq : Component := { c with enqTime := some now }
  if buf.2.isSome then (false, buf)
  else
    match buf.1 with
    | some _ => (true, (buf.1, some cq))
    | none => (true, (some cq, buf.2))

/-- The buffer-routing step of `Workstation::enqueue` (the `decide_buffer`
closure, extended with the single-buffer workstation 1 case): a C1 goes to
the first buffer, a C2 or C3 to the second. -/
def decide_buffer (t : WSType) (c : Component) (now : Time) : Bool × WSType :=
  match t with
  | .W1 buf =>
    let rb0 := add_to_buffer buf c now
    (rb0.1, .W1 rb0.2)
  | .W2 buf1 buf2 =>
    match c.kind with
    | .c1 =>
      let rb0 := add_to_buffer buf1 c now
      (rb0.1, .W2 rb0.2 buf2)
    | _ =>
      let rb0 := add_to_buffer buf2 c now
      (rb0.1, .W2 buf1 rb0.2)
  | .W3 buf1 buf3 =>
    match c.kind with
    | .c1 =>
      let rb0 := add_to_buffer buf1 c now
      (rb0.1, .W3 rb0.2 buf3)
    | _ =>
      let rb0 := add_to_buffer buf3 c now
      (rb0.1, .W3 buf1 rb0.2)

/-- Embedding of `Workstation::enqueue`: asserts the component is finished,
routes it to the buffer selected by `decide_buffer` (C1 to the first buffer,
C2/C3 to the second; workstation 1 has only the one buffer), and on success
logs the buffer state and reports the post-insertion type snapshot plus
whether the workstation is already running. -/
def Workstation.enqueue (w : Workstation) (ins1 : Bool) (c : Component) (now : Time) :
    Option (EnqueueResult × Workstation) :=
  if !c.is_finished then none
  else
    match decide_buffer w.ws_type c now with
    | (true, ty) =>
      some (.CouldEnqueue ins1 c ty now w.is_working,
        { w with
          ws_type := ty
          buffer_states := w.buffer_states ++ [(now, ty)] })
    | (false, _) => some (.Fail, w)

/-- Embedding of the `take_first_avail` closure in `Workstation::assemble`:
the component in the SECOND slot is consumed when that slot is occupied,
otherwise the one in the first slot (unwrap panics when both are empty). -/
def take_first_avail (buf : Buffer) : Option (Component × Buffer) :=
  match buf.2 with
  | some c => some (c, (buf.1, none))
  | none =>
    match buf.1 with
    | some c => some (c, (none, none))
    | none => none

/-- Embedding of `Workstation::assemble`: asserts `can_work`, consumes one
component from each required buffer and builds the product. -/
def Workstation.assemble (w : Workstation) (ts : Time) : Option (Product × WSType) :=
  if !w.ws_type.can_work then none
  else
    match w.ws_type with
    | .W1 buf =>
      match take_first_avail buf with
      | none => none
      | some (c, b) => (Product.make c none ts).map (fun p => (p, .W1 b))
    | .W2 buf1 buf2 =>
      match take_first_avail buf1 with
      | none => none
      | some (c1, b1) =>
        match take_first_avail buf2 with
        | none => none
        | some (c2, b2) => (Product.make c1 (some c2) ts).map (fun p => (p, .W2 b1 b2))
    | .W3 buf1 buf2 =>
      match take_first_avail buf1 with
      | none => none
      | some (c1, b1) =>
        match take_first_avail buf2 with
        | none => none
        | some (c2, b2) => (Product.make c1 (some c2) ts).map (fun p => (p, .W3 b1 b2))

/-- Embedding of `Workstation::start`: asserts no assembly is running, pops
the next assembly duration (fatal when the supply is exhausted). -/
def Workstation.start (w : Workstation) (st : Time) : Option Workstation :=
  match w.current_duration with
  | some _ => none
  | none =>
    match w.assembly_durations with
    | [] => none
    | d :: rest =>
      some { w with
        assembly_durations := rest
        current_duration := some (st, d) }

/-- Embedding of `Workstation::duration_until_next_event`. -/
def Workstation.duration_until_next_event (w : Workstation) (now : Time) : Option Dur :=
  w.current_duration.map (fun sd => sd.1 + sd.2 - now)

/-- Embedding of `Workstation::respond` (the timer-fired handler): asserts
the remaining time is within tolerance, clears the running-assembly marker,
assembles (consuming buffered components), logs the product and buffer
state, restarts itself when `can_work` still holds, and emits exactly one
`Assembled` event. -/
def Workstation.respond (w : Workstation) (now : Time) : Option (FacilityEvent × Workstation) :=
  match w.duration_until_next_event now with
  | none => none
  | some tud =>
    if tud ≤ epsTol then
      let w1 : Workstation := { w with current_duration := none }
      match w1.assemble now with
      | none => none
      | some (p, ty) =>
        let w2 : Workstation :=
          { w1 with
            ws_type := ty
            products := w1.products ++ [p]
            buffer_states := w1.buffer_states ++ [(now, ty)] }
        if ty.can_work then (w2.start now).map (fun w3 => (.Assembled p ty, w3))
        else some (.Assembled p ty, w2)
    else none

/-- Embedding of `Workstation::respond_to`: a `WorkstationStarted` event for
a workstation of the same discriminant starts this workstation; every other
event is ignored. -/
def Workstation.respond_to (w : Workstation) (e : FacilityEvent) :
    Option (Option FacilityEvent × Workstation) :=
  match e with
  | .WorkstationStarted ws st =>
    if w.ws_type.wkind = ws.wkind then (w.start st).map (fun w' => (none, w'))
    else some (none, w)
  | _ => some (none, w)

/-- Product kinds produced by inspector 1 (embedding of the trait default
`produces` for `is_1() == true`): only P1. -/
def produces1 : Product → Bool
  | .P1 _ _ => true
  | _ => false

/-- Product kinds produced by inspector 2 (`is_1() == false`): P2 and P3. -/
def produces2 : Product → Bool
  | .P1 _ _ => false
  | _ => true

/-- A triple of the three workstations, in registration order WS1 WS2 WS3
(the array held by inspector 1). -/
abbrev WS3 := Workstation × Workstation × Workstation

/-- Embedding of the `Inspector1` struct (the `ws` array of shared
workstation references lives in the facility state and is passed to each
operation explicitly). -/
structure Inspector1 where
  durations_c1 : List Dur
  held_component : Option Component
  next_finish_time : Option Time
  is_blocked : Bool
  blocked_times : List Time
  inspection_times : List Time
  departure_times : List Time
deriving DecidableEq

/-- Embedding of `Inspector1::new` (note: inspectors are created blocked). -/
def Inspector1.mkNew (ds : List Dur) : Inspector1 :=
  ⟨ds, none, none, true, [], [], []⟩

/-- Embedding of `Inspector1::set_unblocked` (asserts currently blocked). -/
def Inspector1.set_unblocked (i : Inspector1) (now : Time) : Option Inspector1 :=
  if i.is_blocked then
    some { i with
      blocked_times := i.blocked_times ++ [now]
      is_blocked := false }
  else none

/-- Embedding of `Inspector1::set_blocked` (asserts currently unblocked). -/
def Inspector1.set_blocked (i : Inspector1) (now : Time) : Option Inspector1 :=
  if i.is_blocked then none
  else
    some { i with
      blocked_times := i.blocked_times ++ [now]
      is_blocked := true }

/-- Embedding of `Inspector1::inspect_next`: asserts not blocked; pops the
next inspection duration, creating and holding a freshly started C1
component, or clears the finish time when the supply is exhausted. -/
def Inspector1.inspect_next (i : Inspector1) (now : Time) :
    Option (Option Component × Inspector1) :=
  if i.is_blocked then none
  else
    match i.durations_c1 with
    | d :: rest =>
      let c : Component := ⟨.c1, d, some now, none, none⟩
      some (some c,
        { i with
          durations_c1 := rest
          next_finish_time := some (now + d)
          held_component := some c
          inspection_times := i.inspection_times ++ [now] })
    | [] => some (none, { i with next_finish_time := none })

/-- Embedding of `Inspector1::finish_inspection`. -/
def Inspector1.finish_inspection (i : Inspector1) (now : Time) : Option Inspector1 :=
  match i.held_component with
  | none => none
  | some c => (c.finish_inspecting now).map (fun c' => { i with held_component := some c' })

/-- Embedding of `Inspector1::dispatch_component` with
`USE_NEW_STRATEGY == true`: asserts a held, finished C1 component, then
enqueues at workstation 1 when its C1 count is strictly below both others,
else at workstation 2 when its count is less-or-equal to both others, else
at workstation 3. -/
def Inspector1.dispatch_component (i : Inspector1) (wss : WS3) (now : Time) :
    Option (EnqueueResult × WS3) :=
  match i.held_component with
  | none => none
  | some c =>
    if !c.is_finished then none
    else if !(c.kind == CKind.c1) then none
    else
      let a0 := wss.1.c1_in_waiting
      let a1 := wss.2.1.c1_in_waiting
      let a2 := wss.2.2.c1_in_waiting
      if a0 < a1 ∧ a0 < a2 then
        (wss.1.enqueue true c now).map (fun rw => (rw.1, (rw.2, wss.2.1, wss.2.2)))
      else if a1 ≤ a2 ∧ a1 ≤ a0 then
        (wss.2.1.enqueue true c now).map (fun rw => (rw.1, (wss.1, rw.2, wss.2.2)))
      else if a2 ≤ a0 ∧ a2 ≤ a1 then
        (wss.2.2.enqueue true c now).map (fun rw => (rw.1, (wss.1, wss.2.1, rw.2)))
      else none

/-- Embedding of the shared trait `place_routine` specialised to inspector 1
(whose `held_components` list has at most the single index 0): asserts the
blocked flag matches `expect_blocked`; tries to dispatch the held component;
on success clears the held slot, unblocks when this was an unblock attempt,
starts the next inspection, and reports a `WorkstationStarted` event iff the
target workstation was idle and can now work; on failure (or with nothing
held) sets the inspector blocked when it was not already. -/
def Inspector1.place_routine (i : Inspector1) (wss : WS3) (now : Time)
    (expect_blocked : Bool) : Option (Option FacilityEvent × Inspector1 × WS3) :=
  if !(i.is_blocked == expect_blocked) then none
  else
    match i.held_component with
    | some _ =>
      match i.dispatch_component wss now with
      | none => none
      | some (.CouldEnqueue _ component ws ts working, wss') =>
        if !(ws.contains component.kind) then none
        else
          let i1 : Inspector1 := { i with held_component := none }
          match (if expect_blocked then i1.set_unblocked now else some i1) with
          | none => none
          | some i2 =>
            match i2.inspect_next now with
            | none => none
            | some (_, i3) =>
              some ((if !working && ws.can_work then some (.WorkstationStarted ws ts)
                     else none), i3, wss')
      | some (.Fail, wss') =>
        if !expect_blocked then (i.set_blocked now).map (fun i' => (none, i', wss'))
        else some (none, i, wss')
    | none =>
      if !expect_blocked then (i.set_blocked now).map (fun i' => (none, i', wss))
      else some (none, i, wss)

/-- Embedding of `Inspector1::log_departure`. -/
def Inspector1.log_departure (i : Inspector1) (now : Time) : Inspector1 :=
  { i with departure_times := i.departure_times ++ [now] }

/-- Embedding of `SimulationActor::respond_to` for inspector 1: an
`Assembled` event of a product this inspector feeds logs the departure and,
when blocked, retries placement; `SimulationStarted` unblocks and begins
the first inspection (fatal when there is nothing to inspect). -/
def Inspector1.respond_to (i : Inspector1) (wss : WS3) (e : FacilityEvent) :
    Option (Option FacilityEvent × Inspector1 × WS3) :=
  match e with
  | .Assembled p _ =>
    let i0 := if produces1 p then i.log_departure p.timestamp else i
    if produces1 p && i0.is_blocked then i0.place_routine wss p.timestamp true
    else some (none, i0, wss)
  | .SimulationStarted =>
    match i.set_unblocked timeStampStart with
    | none => none
    | some i1 =>
      match i1.inspect_next timeStampStart with
      | none => none
      | some (oc, i2) => if oc.isSome then some (none, i2, wss) else none
  | _ => some (none, i, wss)

/-- Embedding of `SimulationActor::respond` for inspector 1: asserts not
blocked, finishes the current inspection and runs the place routine. -/
def Inspector1.respond (i : Inspector1) (wss : WS3) (now : Time) :
    Option (Option FacilityEvent × Inspector1 × WS3) :=
  if i.is_blocked then none
  else
    match i.finish_inspection now with
    | none => none
    | some i1 => i1.place_routine wss now false

/-- Embedding of `duration_until_next_event` for inspector 1: none while
blocked, otherwise the time left to the next inspection end. -/
def Inspector1.duration_until_next_event (i : Inspector1) (now : Time) : Option Dur :=
  if i.is_blocked then none
  else i.next_finish_time.map (fun ts => ts - now)

/-- Embedding of the `Inspector2` struct.  The Rust code draws booleans from
a linear-congruential generator seeded from the wall clock
(`Random::new()` in `Inspector2::new`); the stream of booleans it will
produce is embedded as the explicit sequence `randSeq` with cursor
`randIdx`. -/
structure Inspector2 where
  durations_c2 : List Dur
  durations_c3 : List Dur
  held_c2 : Option Component
  held_c3 : Option Component
  next_finish_time : Option (Component × Time)
  is_blocked : Bool
  randSeq : Nat → Bool
  randIdx : Nat
  blocked_times : List Time
  inspection_times : List Time
  departure_times : List Time

/-- Embedding of `Inspector2::new` (created blocked, holding nothing). -/
def Inspector2.mkNew (d2 d3 : List Dur) (rs : Nat → Bool) : Inspector2 :=
  ⟨d2, d3, none, none, none, true, rs, 0, [], [], []⟩

/-- Embedding of `Random::boolean` as consumed by inspector 2. -/
def Inspector2.boolean (i : Inspector2) : Bool × Inspector2 :=
  (i.randSeq i.randIdx, { i with randIdx := i.randIdx + 1 })

/-- Embedding of `Inspector2::set_unblocked`. -/
def Inspector2.set_unblocked (i : Inspector2) (now : Time) : Option Inspector2 :=
  if i.is_blocked then
    some { i with
      blocked_times := i.blocked_times ++ [now]
      is_blocked := false }
  else none

/-- Embedding of `Inspector2::set_blocked`. -/
def Inspector2.set_blocked (i : Inspector2) (now : Time) : Option Inspector2 :=
  if i.is_blocked then none
  else
    some { i with
      blocked_times := i.blocked_times ++ [now]
      is_blocked := true }

/-- Embedding of `Inspector2::decide_next_component`: pick from the sole
remaining supply; with both supplies available prefer the kind whose target
buffer is not full when the other is full and nothing of that kind is held;
report no decision when both target buffers are full; otherwise draw a
random boolean (true picks C3). -/
def Inspector2.decide_next_component (i : Inspector2) (ws2 ws3 : Workstation) :
    Option (Option Component × Inspector2) :=
  if i.durations_c2.length = 0 ∧ i.durations_c3.length ≠ 0 then
    match i.durations_c3 with
    | d :: rest => some (some ⟨.c3, d, none, none, none⟩, { i with durations_c3 := rest })
    | [] => none
  else if i.durations_c2.length ≠ 0 ∧ i.durations_c3.length = 0 then
    match i.durations_c2 with
    | d :: rest => some (some ⟨.c2, d, none, none, none⟩, { i with durations_c2 := rest })
    | [] => none
  else if i.durations_c2.length ≠ 0 ∧ i.durations_c3.length ≠ 0 then
    match ws2.matching_count .c2, ws3.matching_count .c3 with
    | some c2_count, some c3_count =>
      if c2_count = 2 ∧ c3_count ≠ 2 ∧ !i.held_c3.isSome then
        match i.durations_c3 with
        | d :: rest => some (some ⟨.c3, d, none, none, none⟩, { i with durations_c3 := rest })
        | [] => none
      else if c3_count = 2 ∧ c2_count ≠ 2 ∧ !i.held_c2.isSome then
        match i.durations_c2 with
        | d :: rest => some (some ⟨.c2, d, none, none, none⟩, { i with durations_c2 := rest })
        | [] => none
      else if c3_count = 2 ∧ c2_count = 2 then some (none, i)
      else
        let bi := i.boolean
        if bi.1 then
          match bi.2.durations_c3 with
          | d :: rest => some (some ⟨.c3, d, none, none, none⟩, { bi.2 with durations_c3 := rest })
          | [] => none
        else
          match bi.2.durations_c2 with
          | d :: rest => some (some ⟨.c2, d, none, none, none⟩, { bi.2 with durations_c2 := rest })
          | [] => none
    | _, _ => none
  else some (none, i)

/-- Embedding of `Inspector2::inspect_next`: on a decision, start inspecting
the chosen component and hold it in the slot for its kind (asserting the
slot was empty); on no decision, become blocked with no pending finish. -/
def Inspector2.inspect_next (i : Inspector2) (ws2 ws3 : Workstation) (now : Time) :
    Option (Option Component × Inspector2) :=
  match i.decide_next_component ws2 ws3 with
  | none => none
  | some (some c0, i1) =>
    let c := c0.start_inspecting now
    let i2 : Inspector2 := { i1 with next_finish_time := some (c, now + c.duration) }
    match c.kind with
    | .c1 => none
    | .c2 =>
      if i2.held_c2.isSome then none
      else
        some (some c,
          { i2 with
            held_c2 := some c
            inspection_times := i2.inspection_times ++ [now] })
    | .c3 =>
      if i2.held_c3.isSome then none
      else
        some (some c,
          { i2 with
            held_c3 := some c
            inspection_times := i2.inspection_times ++ [now] })
  | some (none, i1) =>
    match i1.set_blocked now with
    | none => none
    | some i2 => some (none, { i2 with next_finish_time := none })

/-- Embedding of `Inspector2::held_components`: index 2 for the held C2 and
3 for the held C3, optionally restricted to finished components. -/
def Inspector2.held_components (i : Inspector2) (finished_only : Bool) : List Nat :=
  (if i.held_c2.isSome &&
      (!finished_only || (match i.held_c2 with
        | some c => c.is_finished
        | none => false)) then [2] else []) ++
  (if i.held_c3.isSome &&
      (!finished_only || (match i.held_c3 with
        | some c => c.is_finished
        | none => false)) then [3] else [])

/-- Embedding of `Inspector2::remove_component` (panics on an index other
than 2 or 3). -/
def Inspector2.remove_component (i : Inspector2) (idx : Nat) : Option Inspector2 :=
  match idx with
  | 2 => some { i with held_c2 := none }
  | 3 => some { i with held_c3 := none }
  | _ => none

/-- Embedding of `Inspector2::dispatch_component`: an unfinished held
component yields `Fail`; a finished C2 goes to workstation 2 and a finished
C3 to workstation 3. -/
def Inspector2.dispatch_component (i : Inspector2) (ws2 ws3 : Workstation) (idx : Nat)
    (now : Time) : Option (EnqueueResult × Workstation × Workstation) :=
  let oc : Option Component :=
    match idx with
    | 2 => i.held_c2
    | 3 => i.held_c3
    | _ => none
  match oc with
  | none => none
  | some c =>
    if c.is_finished then
      match c.kind with
      | .c2 => (ws2.enqueue false c now).map (fun rw => (rw.1, rw.2, ws3))
      | .c3 => (ws3.enqueue false c now).map (fun rw => (rw.1, ws2, rw.2))
      | .c1 => none
    else some (.Fail, ws2, ws3)

/-- One iteration of the dispatch loop in the shared `place_routine` for
inspector 2: the outer `some none` marks a failed dispatch (loop continues),
`some (some _)` the early return after a successful enqueue. -/
def Inspector2.try_place (i : Inspector2) (ws2 ws3 : Workstation) (now : Time)
    (expect_blocked : Bool) (idx : Nat) :
    Option (Option (Option FacilityEvent) × Inspector2 × Workstation × Workstation) :=
  match i.dispatch_component ws2 ws3 idx now with
  | none => none
  | some (.Fail, ws2', ws3') => some (none, i, ws2', ws3')
  | some (.CouldEnqueue _ component ws ts working, ws2', ws3') =>
    if !(ws.contains component.kind) then none
    else
      match i.remove_component idx with
      | none => none
      | some i1 =>
        match (if expect_blocked then i1.set_unblocked now else some i1) with
        | none => none
        | some i2 =>
          match i2.inspect_next ws2' ws3' now with
          | none => none
          | some (_, i3) =>
            some (some (if !working && ws.can_work then some (.WorkstationStarted ws ts)
                        else none), i3, ws2', ws3')

/-- The `for` loop of the shared `place_routine` over the indices of held
finished components. -/
def Inspector2.place_loop (now : Time) (expect_blocked : Bool) :
    List Nat → Inspector2 → Workstation → Workstation →
    Option (Option (Option FacilityEvent) × Inspector2 × Workstation × Workstation)
  | [], i, ws2, ws3 => some (none, i, ws2, ws3)
  | idx :: rest, i, ws2, ws3 =>
    match Inspector2.try_place i ws2 ws3 now expect_blocked idx with
    | none => none
    | some (some ev, i', ws2', ws3') => some (some ev, i', ws2', ws3')
    | some (none, i', ws2', ws3') => Inspector2.place_loop now expect_blocked rest i' ws2' ws3'

/-- Embedding of the shared trait `place_routine` specialised to inspector 2:
after the dispatch loop, an inspector holding fewer than two components
starts the next inspection and then unblocks; otherwise it sets itself
blocked when it was not already. -/
def Inspector2.place_routine (i : Inspector2) (ws2 ws3 : Workstation) (now : Time)
    (expect_blocked : Bool) :
    Option (Option FacilityEvent × Inspector2 × Workstation × Workstation) :=
  if !(i.is_blocked == expect_blocked) then none
  else
    match Inspector2.place_loop now expect_blocked (i.held_components true) i ws2 ws3 with
    | none => none
    | some (some ev, i', ws2', ws3') => some (ev, i', ws2', ws3')
    | some (none, i', ws2', ws3') =>
      if (i'.held_components false).length < 2 then
        match i'.inspect_next ws2' ws3' now with
        | none => none
        | some (_, i2) =>
          match i2.set_unblocked now with
          | none => none
          | some i3 => some (none, i3, ws2', ws3')
      else if !expect_blocked then
        (i'.set_blocked now).map (fun i2 => (none, i2, ws2', ws3'))
      else some (none, i', ws2', ws3')

/-- Embedding of `Inspector2::finish_inspection`: when a held C2 exists the
held C3 is never examined (the `else if` of the source); only an unfinished
held component is stamped. -/
def Inspector2.finish_inspection (i : Inspector2) (now : Time) : Option Inspector2 :=
  match i.held_c2 with
  | some c2 =>
    if !c2.is_finished then
      match c2.finish_inspecting now with
      | none => none
      | some c' =>
        if c'.kind == CKind.c2 then some { i with held_c2 := some c' } else none
    else some i
  | none =>
    match i.held_c3 with
    | some c3 =>
      if !c3.is_finished then
        match c3.finish_inspecting now with
        | none => none
        | some c' =>
          if c'.kind == CKind.c3 then some { i with held_c3 := some c' } else none
      else some i
    | none => some i

/-- Embedding of `Inspector2::log_departure`. -/
def Inspector2.log_departure (i : Inspector2) (now : Time) : Inspector2 :=
  { i with departure_times := i.departure_times ++ [now] }

/-- Embedding of `SimulationActor::respond_to` for inspector 2. -/
def Inspector2.respond_to (i : Inspector2) (ws2 ws3 : Workstation) (e : FacilityEvent) :
    Option (Option FacilityEvent × Inspector2 × Workstation × Workstation) :=
  match e with
  | .Assembled p _ =>
    let i0 := if produces2 p then i.log_departure p.timestamp else i
    if produces2 p && i0.is_blocked then i0.place_routine ws2 ws3 p.timestamp true
    else some (none, i0, ws2, ws3)
  | .SimulationStarted =>
    match i.set_unblocked timeStampStart with
    | none => none
    | some i1 =>
      match i1.inspect_next ws2 ws3 timeStampStart with
      | none => none
      | some (oc, i2) => if oc.isSome then some (none, i2, ws2, ws3) else none
  | _ => some (none, i, ws2, ws3)

/-- Embedding of `SimulationActor::respond` for inspector 2. -/
def Inspector2.respond (i : Inspector2) (ws2 ws3 : Workstation) (now : Time) :
    Option (Option FacilityEvent × Inspector2 × Workstation × Workstation) :=
  if i.is_blocked then none
  else
    match i.finish_inspection now with
    | none => none
    | some i1 => i1.place_routine ws2 ws3 now false

/-- Embedding of `next_end_time` composed with `duration_until_next_event`
for inspector 2. -/
def Inspector2.duration_until_next_event (i : Inspector2) (now : Time) : Option Dur :=
  if i.is_blocked then none
  else i.next_finish_time.map (fun cts => cts.2 - now)

/-- Embedding of `FacilitySimulation`: the five actors in registration order
WS1, WS2, WS3, Inspector1, Inspector2 (the `actors` vector of `main.rs`),
plus the clock. -/
structure Facility where
  ws1 : Workstation
  ws2 : Workstation
  ws3 : Workstation
  ins1 : Inspector1
  ins2 : Inspector2
  clock : Time

/-- Each actor's `duration_until_next_event` at the given instant, in
registration order (`Duration::never()` is `none`). -/
def Facility.durList (f : Facility) : List (Option Dur) :=
  [f.ws1.duration_until_next_event f.clock,
   f.ws2.duration_until_next_event f.clock,
   f.ws3.duration_until_next_event f.clock,
   f.ins1.duration_until_next_event f.clock,
   f.ins2.duration_until_next_event f.clock]

/-- The comparison `val < min.1` performed by the scheduler, where the
running best may still be the initial `Duration::never()` sentinel. -/
def sched_lt (d : Dur) : Option Dur → Bool
  | none => true
  | some m => decide (d < m)

/-- The fold of `FacilitySimulation::time_until_next_actor_event`: the
accumulator is `(best index, best duration, found)` starting from
`(0, never, false)`; an actor with a finite duration strictly below the
running best replaces it. -/
def minLoop : List (Option Dur) → Nat → Nat × Option Dur × Bool → Nat × Option Dur × Bool
  | [], _, acc => acc
  | v :: rest, idx, acc =>
    match v with
    | none => minLoop rest (idx + 1) acc
    | some d =>
      if sched_lt d acc.2.1 then minLoop rest (idx + 1) (idx, some d, true)
      else minLoop rest (idx + 1) acc

/-- Embedding of `FacilitySimulation::time_until_next_actor_event`. -/
def timeUntilNext (ds : List (Option Dur)) : Option (Nat × Dur) :=
  match minLoop ds 0 (0, none, false) with
  | (i, some d, true) => some (i, d)
  | _ => none

/-- Embedding of `FacilitySimulation::dispatch_to_simulation_actors`: every
actor's `respond_to` runs in registration order, threading the shared
workstation state; derived events returned by the handlers are discarded. -/
def Facility.dispatch_to_simulation_actors (f : Facility) (e : FacilityEvent) :
    Option Facility :=
  match f.ws1.respond_to e with
  | none => none
  | some (_, w1) =>
    match f.ws2.respond_to e with
    | none => none
    | some (_, w2) =>
      match f.ws3.respond_to e with
      | none => none
      | some (_, w3) =>
        match f.ins1.respond_to (w1, w2, w3) e with
        | none => none
        | some (_, i1, wss) =>
          match f.ins2.respond_to wss.2.1 wss.2.2 e with
          | none => none
          | some (_, i2, w2', w3') =>
            some ⟨wss.1, w2', w3', i1, i2, f.clock⟩

/-- Invocation of actor `idx`'s completion handler (`Actor::respond`) at the
given instant, in registration order. -/
def Facility.respondActor (f : Facility) (idx : Nat) (now : Time) :
    Option (Option FacilityEvent × Facility) :=
  match idx with
  | 0 => (f.ws1.respond now).map (fun ew => (some ew.1, { f with ws1 := ew.2 }))
  | 1 => (f.ws2.respond now).map (fun ew => (some ew.1, { f with ws2 := ew.2 }))
  | 2 => (f.ws3.respond now).map (fun ew => (some ew.1, { f with ws3 := ew.2 }))
  | 3 =>
    (f.ins1.respond (f.ws1, f.ws2, f.ws3) now).map (fun r =>
      (r.1, { f with
        ins1 := r.2.1
        ws1 := r.2.2.1
        ws2 := r.2.2.2.1
        ws3 := r.2.2.2.2 }))
  | 4 =>
    (f.ins2.respond f.ws2 f.ws3 now).map (fun r =>
      (r.1, { f with
        ins2 := r.2.1
        ws2 := r.2.2.1
        ws3 := r.2.2.2 }))
  | _ => none

/-- Outcome of one iteration of the `while let` loop in
`FacilitySimulation::run`. -/
inductive StepOut
  | halt
  | panic
  | next (f : Facility)

/-- One iteration of the run loop: find the next actor, advance the clock by
its duration, invoke exactly that actor, and broadcast the derived event
(when there is one) to every actor. -/
def Facility.step (f : Facility) : StepOut :=
  match timeUntilNext f.durList with
  | none => .halt
  | some (idx, d) =>
    let f1 : Facility := { f with clock := f.clock + d }
    match f1.respondActor idx f1.clock with
    | none => .panic
    | some (some e, f2) =>
      match f2.dispatch_to_simulation_actors e with
      | none => .panic
      | some f3 => .next f3
    | some (none, f2) => .next f2

/-- The run loop with fuel; returns the final clock value minus the start
time when the loop terminates (no actor has a finite next-event time). -/
def Facility.runFuel : Nat → Facility → Option Dur
  | 0, _ => none
  | n + 1, f =>
    match f.step with
    | .halt => some (f.clock - timeStampStart)
    | .panic => none
    | .next f' => Facility.runFuel n f'

/-- Embedding of `FacilitySimulation::run`: seed all actors with the
`SimulationStarted` broadcast, then iterate the loop. -/
def Facility.run (fuel : Nat) (f : Facility) : Option Dur :=
  match f.dispatch_to_simulation_actors .SimulationStarted with
  | none => none
  | some f1 => Facility.runFuel fuel f1

/-- Iterate `step` a fixed number of times, keeping the facility state
(`none` when the run halts or panics before that). -/
def Facility.stepIter : Nat → Facility → Option Facility
  | 0, f => some f
  | n + 1, f =>
    match f.step with
    | .next f' => Facility.stepIter n f'
    | _ => none

/-- The per-run inputs of `run_iteration`: pre-generated assembly-duration
supplies for the three workstations, inspection-duration supplies for C1,
C2 and C3, and the boolean random-variate sequence consumed by
inspector 2. -/
structure InitArgs where
  ad1 : List Dur
  ad2 : List Dur
  ad3 : List Dur
  ic1 : List Dur
  ic2 : List Dur
  ic3 : List Dur
  rs : Nat → Bool

/-- Embedding of the simulation construction in `run_iteration`: three empty
workstations with their duration supplies, the two inspectors, clock at the
start timestamp. -/
def initFacility (a : InitArgs) : Facility :=
  ⟨Workstation.mkNew (.W1 (none, none)) a.ad1,
   Workstation.mkNew (.W2 (none, none) (none, none)) a.ad2,
   Workstation.mkNew (.W3 (none, none) (none, none)) a.ad3,
   Inspector1.mkNew a.ic1,
   Inspector2.mkNew a.ic2 a.ic3 a.rs,
   timeStampStart⟩

/-- The states a run reaches at or after the `SimulationStarted` broadcast. -/
inductive PostStart (a : InitArgs) : Facility → Prop
  | start {f : Facility} :
      (initFacility a).dispatch_to_simulation_actors .SimulationStarted = some f →
      PostStart a f
  | step {f f' : Facility} : PostStart a f → f.step = .next f' → PostStart a f'

/-- Every state of a run: the constructed facility and everything from the
`SimulationStarted` broadcast on. -/
def ReachableState (a : InitArgs) (f : Facility) : Prop :=
  f = initFacility a ∨ PostStart a f

/-- Declarative characterisation of the scheduler's choice: actor `i` has
the finite duration `d`, no actor has a strictly smaller finite duration,
and every earlier-registered actor with a finite duration has a strictly
larger one. -/
def NextActorSpec (ds : List (Option Dur)) (i : Nat) (d : Dur) : Prop :=
  ds.get? i = some (some d) ∧
  (∀ j dj, ds.get? j = some (some dj) → d ≤ dj) ∧
  (∀ j dj, j < i → ds.get? j = some (some dj) → d < dj)

/-- Reference recursion computing the first index attaining the minimum
finite duration. -/
def firstMin : List (Option Dur) → Option (Nat × Dur)
  | [] => none
  | none :: rest => (firstMin rest).map (fun p => (p.1 + 1, p.2))
  | some d :: rest =>
    match firstMin rest with
    | none => some (0, d)
    | some (j, m) => if d ≤ m then some (0, d) else some (j + 1, m)

lemma minLoop_cons_none (tl : List (Option Dur)) (n : Nat) (acc : Nat × Option Dur × Bool) :
    minLoop (none :: tl) n acc = minLoop tl (n + 1) acc := rfl

lemma minLoop_cons_some (d : Dur) (tl : List (Option Dur)) (n : Nat)
    (acc : Nat × Option Dur × Bool) :
    minLoop (some d :: tl) n acc =
      if sched_lt d acc.2.1 then minLoop tl (n + 1) (n, some d, true)
      else minLoop tl (n + 1) acc := rfl

lemma firstMin_cons_none (tl : List (Option Dur)) :
    firstMin (none :: tl) = (firstMin tl).map (fun p => (p.1 + 1, p.2)) := rfl

lemma firstMin_eq_none_iff (l : List (Option Dur)) :
    firstMin l = none ↔ ∀ x ∈ l, x = none := by
  induction l with
  | nil => simp [firstMin]
  | cons hd tl ih =>
    cases hd with
    | none =>
      rw [firstMin_cons_none, Option.map_eq_none', ih, List.forall_mem_cons]
      simp
    | some d =>
      constructor
      · intro h
        exfalso
        rcases hftl : firstMin tl with _ | ⟨j, m⟩
        · have h2 : some ((0 : Nat), d) = none := by
            rw [show firstMin (some d :: tl)
              = match firstMin tl with
                | none => some (0, d)
                | some (j, m) => if d ≤ m then some (0, d) else some (j + 1, m) from rfl,
              hftl] at h
            exact h
          exact Option.noConfusion h2
        · have h2 : (if d ≤ m then some ((0 : Nat), d) else some (j + 1, m)) = none := by
            rw [show firstMin (some d :: tl)
              = match firstMin tl with
                | none => some (0, d)
                | some (j, m) => if d ≤ m then some (0, d) else some (j + 1, m) from rfl,
              hftl] at h
            exact h
          split_ifs at h2
      · intro h
        exact absurd (h (some d) (List.mem_cons_self _ _)) (by simp)

lemma minLoop_all_none (l : List (Option Dur)) :
    ∀ n acc, (∀ x ∈ l, x = none) → minLoop l n acc = acc := by
  induction l with
  | nil => intro n acc _; rfl
  | cons hd tl ih =>
    intro n acc h
    have hhd : hd = none := h hd (List.mem_cons_self _ _)
    subst hhd
    rw [minLoop_cons_none]
    exact ih (n + 1) acc (fun x hx => h x (List.mem_cons_of_mem _ hx))

lemma minLoop_run_none (l : List (Option Dur)) (hfm : firstMin l = none) (n i : Nat) (b : Dur) :
    minLoop l n (i, some b, true) = (i, some b, true) :=
  minLoop_all_none l n _ ((firstMin_eq_none_iff l).mp hfm)

lemma minLoop_run_some (l : List (Option Dur)) :
    ∀ n i b j m, firstMin l = some (j, m) →
      minLoop l n (i, some b, true)
        = if m < b then (n + j, some m, true) else (i, some b, true) := by
  induction l with
  | nil =>
    intro n i b j m h
    exact absurd h (by simp [firstMin])
  | cons hd tl ih =>
    intro n i b j m h
    cases hd with
    | none =>
      rw [firstMin_cons_none] at h
      rcases hftl : firstMin tl with _ | ⟨j', m'⟩ <;> rw [hftl] at h
      · exact Option.noConfusion h
      · have h2 : some (j' + 1, m') = some (j, m) := h
        rw [Option.some.injEq, Prod.mk.injEq] at h2
        obtain ⟨hj, hm⟩ := h2
        subst hj
        subst hm
        rw [minLoop_cons_none, ih (n + 1) i b j' m' hftl]
        by_cases hmb : m' < b
        · rw [if_pos hmb, if_pos hmb]
          have h3 : n + 1 + j' = n + (j' + 1) := by omega
          rw [h3]
        · rw [if_neg hmb, if_neg hmb]
    | some d =>
      have hc : sched_lt d ((i, some b, true) : Nat × Option Dur × Bool).2.1
          = decide (d < b) := rfl
      have hstep : firstMin (some d :: tl)
          = match firstMin tl with
            | none => some (0, d)
            | some (j, m) => if d ≤ m then some (0, d) else some (j + 1, m) := rfl
      rw [hstep] at h
      rcases hftl : firstMin tl with _ | ⟨j', m'⟩ <;> rw [hftl] at h
      · have h2 : some ((0 : Nat), d) = some (j, m) := h
        rw [Option.some.injEq, Prod.mk.injEq] at h2
        obtain ⟨hj, hm⟩ := h2
        subst hj
        subst hm
        have htl : ∀ x ∈ tl, x = none := (firstMin_eq_none_iff tl).mp hftl
        rw [minLoop_cons_some, hc]
        by_cases hdb : d < b
        · rw [if_pos (by simp [hdb]), minLoop_all_none tl _ _ htl, if_pos hdb]
          have h3 : n = n + 0 := by omega
          exact congrArg (fun k => (k, some d, true)) h3
        · rw [if_neg (by simp [hdb]), minLoop_all_none tl _ _ htl, if_neg hdb]
      · have h2 : (if d ≤ m' then some ((0 : Nat), d) else some (j' + 1, m'))
            = some (j, m) := h
        by_cases hdm : d ≤ m'
        · rw [if_pos hdm, Option.some.injEq, Prod.mk.injEq] at h2
          obtain ⟨hj, hm⟩ := h2
          subst hj
          subst hm
          rw [minLoop_cons_some, hc]
          by_cases hdb : d < b
          · rw [if_pos (by simp [hdb]), ih (n + 1) n d j' m' hftl,
              if_neg (not_lt.mpr hdm), if_pos hdb]
            have h3 : n = n + 0 := by omega
            exact congrArg (fun k => (k, some d, true)) h3
          · rw [if_neg (by simp [hdb]), ih (n + 1) i b j' m' hftl, if_neg hdb]
            have hbd : b ≤ d := le_of_not_lt hdb
            rw [if_neg (not_lt.mpr (le_trans hbd hdm))]
        · rw [if_neg hdm, Option.some.injEq, Prod.mk.injEq] at h2
          obtain ⟨hj, hm⟩ := h2
          subst hj
          subst hm
          have hmd : m' < d := lt_of_not_le hdm
          rw [minLoop_cons_some, hc]
          by_cases hdb : d < b
          · rw [if_pos (by simp [hdb]), ih (n + 1) n d j' m' hftl, if_pos hmd,
              if_pos (hmd.trans hdb)]
            have h3 : n + 1 + j' = n + (j' + 1) := by omega
            rw [h3]
          · rw [if_neg (by simp [hdb]), ih (n + 1) i b j' m' hftl]
            by_cases hmb : m' < b
            · rw [if_pos hmb, if_pos hmb]
              have h3 : n + 1 + j' = n + (j' + 1) := by omega
              rw [h3]
            · rw [if_neg hmb, if_neg hmb]

lemma minLoop_init_none (l : List (Option Dur)) (hfm : firstMin l = none) (n : Nat) :
    minLoop l n (0, none, false) = (0, none, false) :=
  minLoop_all_none l n _ ((firstMin_eq_none_iff l).mp hfm)

lemma minLoop_init_some (l : List (Option Dur)) :
    ∀ n j m, firstMin l = some (j, m) →
      minLoop l n (0, none, false) = (n + j, some m, true) := by
  induction l with
  | nil =>
    intro n j m h
    exact absurd h (by simp [firstMin])
  | cons hd tl ih =>
    intro n j m h
    cases hd with
    | none =>
      rw [firstMin_cons_none] at h
      rcases hftl : firstMin tl with _ | ⟨j', m'⟩ <;> rw [hftl] at h
      · exact Option.noConfusion h
      · have h2 : some (j' + 1, m') = some (j, m) := h
        rw [Option.some.injEq, Prod.mk.injEq] at h2
        obtain ⟨hj, hm⟩ := h2
        subst hj
        subst hm
        rw [minLoop_cons_none, ih (n + 1) j' m' hftl]
        have h3 : n + 1 + j' = n + (j' + 1) := by omega
        rw [h3]
    | some d =>
      have hc : sched_lt d (((0 : Nat), (none : Option Dur), false)).2.1 = true := rfl
      have hstep : firstMin (some d :: tl)
          = match firstMin tl with
            | none => some (0, d)
            | some (j, m) => if d ≤ m then some (0, d) else some (j + 1, m) := rfl
      rw [hstep] at h
      rw [minLoop_cons_some, hc, if_pos rfl]
      rcases hftl : firstMin tl with _ | ⟨j', m'⟩ <;> rw [hftl] at h
      · have h2 : some ((0 : Nat), d) = some (j, m) := h
        rw [Option.some.injEq, Prod.mk.injEq] at h2
        obtain ⟨hj, hm⟩ := h2
        subst hj
        subst hm
        have htl : ∀ x ∈ tl, x = none := (firstMin_eq_none_iff tl).mp hftl
        rw [minLoop_all_none tl _ _ htl]
        have h3 : n = n + 0 := by omega
        exact congrArg (fun k => (k, some d, true)) h3
      · have h2 : (if d ≤ m' then some ((0 : Nat), d) else some (j' + 1, m'))
            = some (j, m) := h
        by_cases hdm : d ≤ m'
        · rw [if_pos hdm, Option.some.injEq, Prod.mk.injEq] at h2
          obtain ⟨hj, hm⟩ := h2
          subst hj
          subst hm
          rw [minLoop_run_some tl (n + 1) n d j' m' hftl, if_neg (not_lt.mpr hdm)]
          have h3 : n = n + 0 := by omega
          exact congrArg (fun k => (k, some d, true)) h3
        · rw [if_neg hdm, Option.some.injEq, Prod.mk.injEq] at h2
          obtain ⟨hj, hm⟩ := h2
          subst hj
          subst hm
          have hmd : m' < d := lt_of_not_le hdm
          rw [minLoop_run_some tl (n + 1) n d j' m' hftl, if_pos hmd]
          have h3 : n + 1 + j' = n + (j' + 1) := by omega
          rw [h3]

lemma timeUntilNext_eq_firstMin (ds : List (Option Dur)) :
    timeUntilNext ds = firstMin ds := by
  unfold timeUntilNext
  rcases hfm : firstMin ds with _ | ⟨j, m⟩
  · rw [minLoop_init_none ds hfm 0]
  · rw [minLoop_init_some ds 0 j m hfm]
    show some (0 + j, m) = some (j, m)
    rw [Nat.zero_add]

lemma firstMin_spec (l : List (Option Dur)) :
    ∀ j m, firstMin l = some (j, m) → NextActorSpec l j m := by
  induction l with
  | nil => intro j m h; exact Option.noConfusion h
  | cons hd tl ih =>
    intro j m h
    cases hd with
    | none =>
      rw [firstMin_cons_none] at h
      rcases hftl : firstMin tl with _ | ⟨j', m'⟩ <;> rw [hftl] at h
      · exact Option.noConfusion h
      · have h2 : some (j' + 1, m') = some (j, m) := h
        rw [Option.some.injEq, Prod.mk.injEq] at h2
        obtain ⟨hj, hm⟩ := h2
        subst hj
        subst hm
        obtain ⟨hget, hmin, hstrict⟩ := ih j' m' hftl
        refine ⟨by simpa using hget, ?_, ?_⟩
        · intro j dj hj
          cases j with
          | zero => simp at hj
          | succ k => exact hmin k dj (by simpa using hj)
        · intro j dj hlt hj
          cases j with
          | zero => simp at hj
          | succ k => exact hstrict k dj (by omega) (by simpa using hj)
    | some d =>
      have hstep : firstMin (some d :: tl)
          = match firstMin tl with
            | none => some (0, d)
            | some (j, m) => if d ≤ m then some (0, d) else some (j + 1, m) := rfl
      rw [hstep] at h
      rcases hftl : firstMin tl with _ | ⟨j', m'⟩ <;> rw [hftl] at h
      · have h2 : some ((0 : Nat), d) = some (j, m) := h
        rw [Option.some.injEq, Prod.mk.injEq] at h2
        obtain ⟨hj, hm⟩ := h2
        subst hj
        subst hm
        have htl : ∀ x ∈ tl, x = none := (firstMin_eq_none_iff tl).mp hftl
        refine ⟨by simp, ?_, ?_⟩
        · intro j dj hj
          cases j with
          | zero =>
            simp only [List.get?_cons_zero, Option.some.injEq] at hj
            exact le_of_eq hj
          | succ k =>
            exfalso
            have hmem := List.get?_mem (show tl.get? k = some (some dj) by simpa using hj)
            exact Option.noConfusion (htl _ hmem)
        · intro j dj hlt _
          omega
      · have h2 : (if d ≤ m' then some ((0 : Nat), d) else some (j' + 1, m'))
            = some (j, m) := h
        obtain ⟨hget, hmin, hstrict⟩ := ih j' m' hftl
        by_cases hdm : d ≤ m'
        · rw [if_pos hdm, Option.some.injEq, Prod.mk.injEq] at h2
          obtain ⟨hj, hm⟩ := h2
          subst hj
          subst hm
          refine ⟨by simp, ?_, ?_⟩
          · intro j dj hj
            cases j with
            | zero =>
              simp only [List.get?_cons_zero, Option.some.injEq] at hj
              exact le_of_eq hj
            | succ k => exact le_trans hdm (hmin k dj (by simpa using hj))
          · intro j dj hlt _
            omega
        · rw [if_neg hdm, Option.some.injEq, Prod.mk.injEq] at h2
          obtain ⟨hj, hm⟩ := h2
          subst hj
          subst hm
          have hmd : m' < d := lt_of_not_le hdm
          refine ⟨by simpa using hget, ?_, ?_⟩
          · intro j dj hj
            cases j with
            | zero =>
              simp only [List.get?_cons_zero, Option.some.injEq] at hj
              have h3 : dj = d := hj.symm
              exact h3 ▸ le_of_lt hmd
            | succ k => exact hmin k dj (by simpa using hj)
          · intro j dj hlt hj
            cases j with
            | zero =>
              simp only [List.get?_cons_zero, Option.some.injEq] at hj
              have h3 : dj = d := hj.symm
              exact h3 ▸ hmd
            | succ k => exact hstrict k dj (by omega) (by simpa using hj)

lemma nextActorSpec_unique {ds : List (Option Dur)} {i1 d1 i2 d2}
    (h1 : NextActorSpec ds i1 d1) (h2 : NextActorSpec ds i2 d2) :
    i1 = i2 ∧ d1 = d2 := by
  obtain ⟨g1, min1, st1⟩ := h1
  obtain ⟨g2, min2, st2⟩ := h2
  have hd12 : d1 ≤ d2 := min1 i2 d2 g2
  have hd21 : d2 ≤ d1 := min2 i1 d1 g1
  have hd : d1 = d2 := le_antisymm hd12 hd21
  subst hd
  rcases lt_trichotomy i1 i2 with hlt | heq | hgt
  · exact absurd (st2 i1 d1 hlt g1) (lt_irrefl _)
  · exact ⟨heq, rfl⟩
  · exact absurd (st1 i2 d1 hgt g2) (lt_irrefl _)

lemma timeUntilNext_some_iff (ds : List (Option Dur)) (i : Nat) (d : Dur) :
    timeUntilNext ds = some (i, d) ↔ NextActorSpec ds i d := by
  rw [timeUntilNext_eq_firstMin]
  constructor
  · exact firstMin_spec ds i d
  · intro hspec
    rcases hfm : firstMin ds with _ | ⟨j, m⟩
    · exfalso
      have hall := (firstMin_eq_none_iff ds).mp hfm
      have hmem := List.get?_mem hspec.1
      exact Option.noConfusion (hall _ hmem)
    · have hspec' := firstMin_spec ds j m hfm
      obtain ⟨hi, hd⟩ := nextActorSpec_unique hspec' hspec
      rw [hi, hd]

lemma timeUntilNext_none_iff (ds : List (Option Dur)) :
    timeUntilNext ds = none ↔ ∀ x ∈ ds, x = none := by
  rw [timeUntilNext_eq_firstMin]
  exact firstMin_eq_none_iff ds

/-- Inputs of a degenerate run with empty duration supplies (before the
`SimulationStarted` broadcast every actor is idle or blocked). -/
def cDegenArgs : InitArgs := ⟨[], [], [], [], [], [], fun _ => true⟩

/-- C1: on every iteration of the facility event loop the dispatcher selects,
among the actors (in registration order WS1, WS2, WS3, Inspector1,
Inspector2) whose `duration_until_next_event` is finite, the one with the
strictly smallest value, ties broken in favour of the earlier-registered
actor; when no actor reports a finite next-event time the loop terminates
and the run returns the final clock value minus the start time. -/
theorem scheduler_selects_min_earliest (f : Facility) :
    (∀ i d, timeUntilNext f.durList = some (i, d) ↔ NextActorSpec f.durList i d) ∧
    (timeUntilNext f.durList = none ↔ ∀ x ∈ f.durList, x = none) ∧
    (timeUntilNext f.durList = none →
      ∀ n, f.runFuel (n + 1) = some (f.clock - timeStampStart)) := by
  refine ⟨fun i d => timeUntilNext_some_iff _ i d, timeUntilNext_none_iff _, ?_⟩
  intro h n
  have hs : f.step = StepOut.halt := by
    unfold Facility.step
    rw [h]
  show (match f.step with
    | StepOut.halt => some (f.clock - timeStampStart)
    | StepOut.panic => none
    | StepOut.next f' => Facility.runFuel n f') = some (f.clock - timeStampStart)
  rw [hs]

/-- Concrete facility with a tie: workstations 2 and 3 both fire in one
minute, workstation 1 in three; the inspectors are blocked. -/
def cTieFacility : Facility :=
  { initFacility cDegenArgs with
    ws1 := { Workstation.mkNew (.W1 (none, none)) [] with current_duration := some (0, 3) }
    ws2 := { Workstation.mkNew (.W2 (none, none) (none, none)) [] with
      current_duration := some (0, 1) }
    ws3 := { Workstation.mkNew (.W3 (none, none) (none, none)) [] with
      current_duration := some (0, 1) } }

/-- Witness for C1: on a concrete facility with a tie between workstations
2 and 3 the scheduler picks the earlier-registered workstation 2 (index 1)
with the minimal duration, and a facility with no pending event terminates
at once returning clock minus start. -/
theorem scheduler_selects_min_earliest_witness :
    NextActorSpec cTieFacility.durList 1 1 ∧
    (initFacility cDegenArgs).runFuel 1
      = some ((initFacility cDegenArgs).clock - timeStampStart) :=
  ⟨((scheduler_selects_min_earliest cTieFacility).1 1 1).mp (by decide),
   (scheduler_selects_min_earliest (initFacility cDegenArgs)).2.2 (by decide) 0⟩

/-- Relational presentation of the run loop: `RunRel f evs g` holds when a
run started at facility state `f` emits exactly the derived events `evs`
(in order) and terminates in state `g`.  The actor fired at each step is
constrained only by the declarative `NextActorSpec`, so functionality of
this relation is exactly the absence of hidden scheduling nondeterminism. -/
inductive RunRel : Facility → List FacilityEvent → Facility → Prop
  | halt {f : Facility} :
      timeUntilNext f.durList = none →
      RunRel f [] f
  | step_silent {f f2 g : Facility} {i : Nat} {d : Dur} {evs : List FacilityEvent} :
      NextActorSpec f.durList i d →
      Facility.respondActor { f with clock := f.clock + d } i (f.clock + d)
        = some (none, f2) →
      RunRel f2 evs g →
      RunRel f evs g
  | step_event {f f2 f3 g : Facility} {i : Nat} {d : Dur} {e : FacilityEvent}
      {evs : List FacilityEvent} :
      NextActorSpec f.durList i d →
      Facility.respondActor { f with clock := f.clock + d } i (f.clock + d)
        = some (some e, f2) →
      f2.dispatch_to_simulation_actors e = some f3 →
      RunRel f3 evs g →
      RunRel f (e :: evs) g

lemma runRel_functional {f : Facility} {evs1 evs2 : List FacilityEvent} {g1 g2 : Facility}
    (h1 : RunRel f evs1 g1) (h2 : RunRel f evs2 g2) : evs1 = evs2 ∧ g1 = g2 := by
  induction h1 generalizing evs2 g2 with
  | halt hnone =>
    cases h2 with
    | halt _ => exact ⟨rfl, rfl⟩
    | step_silent hspec2 _ _ =>
      have hsome := (timeUntilNext_some_iff _ _ _).mpr hspec2
      rw [hnone] at hsome
      exact Option.noConfusion hsome
    | step_event hspec2 _ _ _ =>
      have hsome := (timeUntilNext_some_iff _ _ _).mpr hspec2
      rw [hnone] at hsome
      exact Option.noConfusion hsome
  | step_silent hspec hresp _ ih =>
    cases h2 with
    | halt hnone =>
      have hsome := (timeUntilNext_some_iff _ _ _).mpr hspec
      rw [hnone] at hsome
      exact Option.noConfusion hsome
    | step_silent hspec2 hresp2 hrest2 =>
      obtain ⟨hi, hd⟩ := nextActorSpec_unique hspec hspec2
      subst hi
      subst hd
      rw [hresp] at hresp2
      rw [Option.some.injEq, Prod.mk.injEq] at hresp2
      obtain ⟨-, hf2⟩ := hresp2
      subst hf2
      exact ih hrest2
    | step_event hspec2 hresp2 _ _ =>
      obtain ⟨hi, hd⟩ := nextActorSpec_unique hspec hspec2
      subst hi
      subst hd
      rw [hresp] at hresp2
      rw [Option.some.injEq, Prod.mk.injEq] at hresp2
      exact Option.noConfusion hresp2.1
  | step_event hspec hresp hdisp _ ih =>
    cases h2 with
    | halt hnone =>
      have hsome := (timeUntilNext_some_iff _ _ _).mpr hspec
      rw [hnone] at hsome
      exact Option.noConfusion hsome
    | step_silent hspec2 hresp2 _ =>
      obtain ⟨hi, hd⟩ := nextActorSpec_unique hspec hspec2
      subst hi
      subst hd
      rw [hresp] at hresp2
      rw [Option.some.injEq, Prod.mk.injEq] at hresp2
      exact Option.noConfusion hresp2.1
    | step_event hspec2 hresp2 hdisp2 hrest2 =>
      obtain ⟨hi, hd⟩ := nextActorSpec_unique hspec hspec2
      subst hi
      subst hd
      rw [hresp] at hresp2
      rw [Option.some.injEq, Prod.mk.injEq] at hresp2
      obtain ⟨he, hf2⟩ := hresp2
      have he' : _ = _ := he
      injection he' with he''
      subst he''
      subst hf2
      rw [hdisp] at hdisp2
      rw [Option.some.injEq] at hdisp2
      subst hdisp2
      obtain ⟨hevs, hg⟩ := ih hrest2
      exact ⟨by rw [hevs], hg⟩

/-- C8: two runs of the kernel from the same initial facility (identical
inspection and assembly duration supplies, identical random-variate
sequence) produce the same event sequence and the same final statistics:
elapsed simulated duration, assembled products per workstation, inspector
logs, buffer-state logs — indeed the same final state. -/
theorem identical_inputs_give_identical_runs {f : Facility}
    {evs1 evs2 : List FacilityEvent} {g1 g2 : Facility}
    (h1 : RunRel f evs1 g1) (h2 : RunRel f evs2 g2) :
    evs1 = evs2 ∧
    g1.clock - timeStampStart = g2.clock - timeStampStart ∧
    g1.ws1.products = g2.ws1.products ∧
    g1.ws2.products = g2.ws2.products ∧
    g1.ws3.products = g2.ws3.products ∧
    g1.ws1.buffer_states = g2.ws1.buffer_states ∧
    g1.ins1.blocked_times = g2.ins1.blocked_times ∧
    g1.ins2.blocked_times = g2.ins2.blocked_times ∧
    g1 = g2 := by
  obtain ⟨hevs, hg⟩ := runRel_functional h1 h2
  subst hg
  exact ⟨hevs, rfl, rfl, rfl, rfl, rfl, rfl, rfl, rfl⟩

/-- Witness for C8: the degenerate facility run terminates immediately, and
two such runs agree. -/
theorem identical_inputs_give_identical_runs_witness :
    ([] : List FacilityEvent) = [] ∧
    (initFacility cDegenArgs).clock - timeStampStart
      = (initFacility cDegenArgs).clock - timeStampStart ∧
    (initFacility cDegenArgs).ws1.products = (initFacility cDegenArgs).ws1.products ∧
    (initFacility cDegenArgs).ws2.products = (initFacility cDegenArgs).ws2.products ∧
    (initFacility cDegenArgs).ws3.products = (initFacility cDegenArgs).ws3.products ∧
    (initFacility cDegenArgs).ws1.buffer_states
      = (initFacility cDegenArgs).ws1.buffer_states ∧
    (initFacility cDegenArgs).ins1.blocked_times
      = (initFacility cDegenArgs).ins1.blocked_times ∧
    (initFacility cDegenArgs).ins2.blocked_times
      = (initFacility cDegenArgs).ins2.blocked_times ∧
    initFacility cDegenArgs = initFacility cDegenArgs :=
  identical_inputs_give_identical_runs
    (RunRel.halt (by decide)) (RunRel.halt (by decide))

/-- Buffer well-formedness: the second slot is occupied only when the first
slot is. -/
def BufInv (b : Buffer) : Prop := b.2.isSome = true → b.1.isSome = true

instance (b : Buffer) : Decidable (BufInv b) := by
  unfold BufInv
  infer_instance

/-- Buffer well-formedness for every buffer of a workstation type. -/
def WSType.bufInv : WSType → Prop
  | .W1 buf => BufInv buf
  | .W2 b1 b2 => BufInv b1 ∧ BufInv b2
  | .W3 b1 b2 => BufInv b1 ∧ BufInv b2

instance (t : WSType) : Decidable t.bufInv := by
  cases t <;> (unfold WSType.bufInv; infer_instance)

/-- Buffer well-formedness of a workstation. -/
def Workstation.bufInv (w : Workstation) : Prop := w.ws_type.bufInv

instance (w : Workstation) : Decidable w.bufInv := by
  unfold Workstation.bufInv
  infer_instance

/-- Buffer well-formedness of all three workstations of the facility. -/
def Facility.bufInv (f : Facility) : Prop :=
  f.ws1.bufInv ∧ f.ws2.bufInv ∧ f.ws3.bufInv

/-- A buffer has at least one occupied slot. -/
def bufOccupied (b : Buffer) : Prop := b.1.isSome = true ∨ b.2.isSome = true

/-- The intended reading of `can_assemble`: every required buffer has at
least one occupied slot. -/
def WSType.canWorkSpec : WSType → Prop
  | .W1 buf => bufOccupied buf
  | .W2 b1 b2 => bufOccupied b1 ∧ bufOccupied b2
  | .W3 b1 b2 => bufOccupied b1 ∧ bufOccupied b2

lemma bufInv_can_work_iff (t : WSType) (h : t.bufInv) :
    t.can_work = true ↔ t.canWorkSpec := by
  have hb : ∀ b : Buffer, BufInv b → (b.1.isSome = true ↔ bufOccupied b) := by
    intro b hbi
    constructor
    · exact fun h1 => Or.inl h1
    · rintro (h1 | h2)
      · exact h1
      · exact hbi h2
  cases t with
  | W1 buf =>
    simp only [WSType.can_work, WSType.canWorkSpec]
    exact hb buf h
  | W2 b1 b2 =>
    simp only [WSType.can_work, WSType.canWorkSpec, Bool.and_eq_true]
    rw [hb b1 h.1, hb b2 h.2]
  | W3 b1 b2 =>
    simp only [WSType.can_work, WSType.canWorkSpec, Bool.and_eq_true]
    rw [hb b1 h.1, hb b2 h.2]

lemma add_to_buffer_bufInv (b : Buffer) (c : Component) (now : Time) (h : BufInv b) :
    BufInv (add_to_buffer b c now).2 := by
  rcases b with ⟨b1, b2⟩
  cases b2 <;> cases b1 <;> simp_all [add_to_buffer, BufInv]

lemma decide_buffer_bufInv (t : WSType) (c : Component) (now : Time) (h : t.bufInv) :
    (decide_buffer t c now).2.bufInv := by
  cases t with
  | W1 buf =>
    simp only [decide_buffer, WSType.bufInv]
    exact add_to_buffer_bufInv buf c now h
  | W2 b1 b2 =>
    rcases hk : c.kind <;> simp only [decide_buffer, hk, WSType.bufInv]
    · exact ⟨add_to_buffer_bufInv b1 c now h.1, h.2⟩
    · exact ⟨h.1, add_to_buffer_bufInv b2 c now h.2⟩
    · exact ⟨h.1, add_to_buffer_bufInv b2 c now h.2⟩
  | W3 b1 b2 =>
    rcases hk : c.kind <;> simp only [decide_buffer, hk, WSType.bufInv]
    · exact ⟨add_to_buffer_bufInv b1 c now h.1, h.2⟩
    · exact ⟨h.1, add_to_buffer_bufInv b2 c now h.2⟩
    · exact ⟨h.1, add_to_buffer_bufInv b2 c now h.2⟩

lemma enqueue_bufInv {w : Workstation} {fl : Bool} {c : Component} {now : Time}
    {r : EnqueueResult} {w' : Workstation}
    (h : w.enqueue fl c now = some (r, w')) (hw : w.bufInv) : w'.bufInv := by
  unfold Workstation.enqueue at h
  split at h
  · exact Option.noConfusion h
  · split at h
    case _ ty heq =>
      rw [Option.some.injEq, Prod.mk.injEq] at h
      obtain ⟨-, hw'⟩ := h
      rw [← hw']
      show ty.bufInv
      have hdb := decide_buffer_bufInv w.ws_type c now hw
      rw [heq] at hdb
      exact hdb
    case _ b2 heq =>
      rw [Option.some.injEq, Prod.mk.injEq] at h
      obtain ⟨-, hw'⟩ := h
      rw [← hw']
      exact hw

lemma take_first_avail_bufInv {b : Buffer} {c : Component} {b' : Buffer}
    (h : take_first_avail b = some (c, b')) : BufInv b' := by
  rcases b with ⟨b1, b2⟩
  cases b2
  · cases b1
    · exact Option.noConfusion h
    · simp only [take_first_avail, Option.some.injEq, Prod.mk.injEq] at h
      rw [← h.2]
      simp [BufInv]
  · simp only [take_first_avail, Option.some.injEq, Prod.mk.injEq] at h
    rw [← h.2]
    simp [BufInv]

lemma assemble_bufInv {w : Workstation} {ts : Time} {p : Product} {ty : WSType}
    (h : w.assemble ts = some (p, ty)) : ty.bufInv := by
  unfold Workstation.assemble at h
  split at h
  · exact Option.noConfusion h
  · split at h
    · case _ buf =>
      split at h
      · exact Option.noConfusion h
      · case _ c b' htake =>
        rw [Option.map_eq_some'] at h
        obtain ⟨p', -, heq⟩ := h
        rw [Prod.mk.injEq] at heq
        rw [← heq.2]
        show BufInv b'
        exact take_first_avail_bufInv htake
    · case _ b1 b2 =>
      split at h
      · exact Option.noConfusion h
      · case _ c1 b1' htake1 =>
        split at h
        · exact Option.noConfusion h
        · case _ c2 b2' htake2 =>
          rw [Option.map_eq_some'] at h
          obtain ⟨p', -, heq⟩ := h
          rw [Prod.mk.injEq] at heq
          rw [← heq.2]
          exact ⟨take_first_avail_bufInv htake1, take_first_avail_bufInv htake2⟩
    · case _ b1 b2 =>
      split at h
      · exact Option.noConfusion h
      · case _ c1 b1' htake1 =>
        split at h
        · exact Option.noConfusion h
        · case _ c2 b2' htake2 =>
          rw [Option.map_eq_some'] at h
          obtain ⟨p', -, heq⟩ := h
          rw [Prod.mk.injEq] at heq
          rw [← heq.2]
          exact ⟨take_first_avail_bufInv htake1, take_first_avail_bufInv htake2⟩

lemma start_ws_type {w w' : Workstation} {st : Time}
    (h : w.start st = some w') : w'.ws_type = w.ws_type := by
  unfold Workstation.start at h
  split at h
  · exact Option.noConfusion h
  · split at h
    · exact Option.noConfusion h
    · rw [Option.some.injEq] at h
      rw [← h]

lemma respond_bufInv {w : Workstation} {now : Time} {e : FacilityEvent} {w' : Workstation}
    (h : w.respond now = some (e, w')) : w'.bufInv := by
  unfold Workstation.respond at h
  split at h
  · exact Option.noConfusion h
  · split at h
    · dsimp only at h
      split at h
      · exact Option.noConfusion h
      · case _ p ty hasm =>
        have hty := assemble_bufInv hasm
        split at h
        · rw [Option.map_eq_some'] at h
          obtain ⟨w3, hstart, heq⟩ := h
          rw [Prod.mk.injEq] at heq
          rw [← heq.2]
          show w3.ws_type.bufInv
          rw [start_ws_type hstart]
          exact hty
        · rw [Option.some.injEq, Prod.mk.injEq] at h
          rw [← h.2]
          exact hty
    · exact Option.noConfusion h

lemma ws_respond_to_bufInv {w : Workstation} {e : FacilityEvent}
    {ev : Option FacilityEvent} {w' : Workstation}
    (h : w.respond_to e = some (ev, w')) (hw : w.bufInv) : w'.bufInv := by
  unfold Workstation.respond_to at h
  split at h
  · split at h
    · rw [Option.map_eq_some'] at h
      obtain ⟨w2, hstart, heq⟩ := h
      rw [Prod.mk.injEq] at heq
      rw [← heq.2]
      show w2.ws_type.bufInv
      rw [start_ws_type hstart]
      exact hw
    · rw [Option.some.injEq, Prod.mk.injEq] at h
      rw [← h.2]
      exact hw
  · rw [Option.some.injEq, Prod.mk.injEq] at h
    rw [← h.2]
    exact hw

/-- Shorthand for the invariant on an inspector-1 workstation triple. -/
def ws3Inv (wss : WS3) : Prop :=
  wss.1.bufInv ∧ wss.2.1.bufInv ∧ wss.2.2.bufInv

lemma ins1_dispatch_bufInv {i : Inspector1} {wss wss' : WS3} {now : Time} {r : EnqueueResult}
    (h : i.dispatch_component wss now = some (r, wss')) (hw : ws3Inv wss) : ws3Inv wss' := by
  obtain ⟨h1, h2, h3⟩ := hw
  unfold Inspector1.dispatch_component at h
  split at h
  · exact Option.noConfusion h
  · split at h
    · exact Option.noConfusion h
    · split at h
      · exact Option.noConfusion h
      · dsimp only at h
        split at h
        · rw [Option.map_eq_some'] at h
          obtain ⟨⟨r0, w0⟩, henq, heq⟩ := h
          rw [Prod.mk.injEq] at heq
          rw [← heq.2]
          exact ⟨enqueue_bufInv henq h1, h2, h3⟩
        · split at h
          · rw [Option.map_eq_some'] at h
            obtain ⟨⟨r0, w0⟩, henq, heq⟩ := h
            rw [Prod.mk.injEq] at heq
            rw [← heq.2]
            exact ⟨h1, enqueue_bufInv henq h2, h3⟩
          · split at h
            · rw [Option.map_eq_some'] at h
              obtain ⟨⟨r0, w0⟩, henq, heq⟩ := h
              rw [Prod.mk.injEq] at heq
              rw [← heq.2]
              exact ⟨h1, h2, enqueue_bufInv henq h3⟩
            · exact Option.noConfusion h

lemma ins1_place_bufInv {i : Inspector1} {wss : WS3} {now : Time} {eb : Bool}
    {ev : Option FacilityEvent} {i' : Inspector1} {wss' : WS3}
    (h : i.place_routine wss now eb = some (ev, i', wss')) (hw : ws3Inv wss) : ws3Inv wss' := by
  unfold Inspector1.place_routine at h
  split at h
  · exact Option.noConfusion h
  · split at h
    · split at h
      · exact Option.noConfusion h
      · case _ component ws ts working wss2 hdisp =>
        split at h
        · exact Option.noConfusion h
        · dsimp only at h
          split at h
          · exact Option.noConfusion h
          · split at h
            · exact Option.noConfusion h
            · rw [Option.some.injEq, Prod.mk.injEq] at h
              obtain ⟨-, h2⟩ := h
              rw [Prod.mk.injEq] at h2
              rw [← h2.2]
              exact ins1_dispatch_bufInv hdisp hw
      · case _ wss2 hdisp =>
        split at h
        · rw [Option.map_eq_some'] at h
          obtain ⟨i2, -, heq⟩ := h
          rw [Prod.mk.injEq] at heq
          obtain ⟨-, heq2⟩ := heq
          rw [Prod.mk.injEq] at heq2
          rw [← heq2.2]
          exact ins1_dispatch_bufInv hdisp hw
        · rw [Option.some.injEq, Prod.mk.injEq] at h
          obtain ⟨-, h2⟩ := h
          rw [Prod.mk.injEq] at h2
          rw [← h2.2]
          exact ins1_dispatch_bufInv hdisp hw
    · split at h
      · rw [Option.map_eq_some'] at h
        obtain ⟨i2, -, heq⟩ := h
        rw [Prod.mk.injEq] at heq
        obtain ⟨-, heq2⟩ := heq
        rw [Prod.mk.injEq] at heq2
        rw [← heq2.2]
        exact hw
      · rw [Option.some.injEq, Prod.mk.injEq] at h
        obtain ⟨-, h2⟩ := h
        rw [Prod.mk.injEq] at h2
        rw [← h2.2]
        exact hw

lemma ins1_respond_to_bufInv {i : Inspector1} {wss : WS3} {e : FacilityEvent}
    {ev : Option FacilityEvent} {i' : Inspector1} {wss' : WS3}
    (h : i.respond_to wss e = some (ev, i', wss')) (hw : ws3Inv wss) : ws3Inv wss' := by
  unfold Inspector1.respond_to at h
  split at h
  · split at h
    all_goals dsimp only at h
    all_goals split at h
    · exact ins1_place_bufInv h hw
    · rw [Option.some.injEq, Prod.mk.injEq] at h
      obtain ⟨-, h2⟩ := h
      rw [Prod.mk.injEq] at h2
      rw [← h2.2]
      exact hw
    · exact ins1_place_bufInv h hw
    · rw [Option.some.injEq, Prod.mk.injEq] at h
      obtain ⟨-, h2⟩ := h
      rw [Prod.mk.injEq] at h2
      rw [← h2.2]
      exact hw
  · split at h
    · exact Option.noConfusion h
    · split at h
      · exact Option.noConfusion h
      · split at h
        · rw [Option.some.injEq, Prod.mk.injEq] at h
          obtain ⟨-, h2⟩ := h
          rw [Prod.mk.injEq] at h2
          rw [← h2.2]
          exact hw
        · exact Option.noConfusion h
  · rw [Option.some.injEq, Prod.mk.injEq] at h
    obtain ⟨-, h2⟩ := h
    rw [Prod.mk.injEq] at h2
    rw [← h2.2]
    exact hw

lemma ins1_respond_bufInv {i : Inspector1} {wss : WS3} {now : Time}
    {ev : Option FacilityEvent} {i' : Inspector1} {wss' : WS3}
    (h : i.respond wss now = some (ev, i', wss')) (hw : ws3Inv wss) : ws3Inv wss' := by
  unfold Inspector1.respond at h
  split at h
  · exact Option.noConfusion h
  · split at h
    · exact Option.noConfusion h
    · exact ins1_place_bufInv h hw

lemma ins2_dispatch_bufInv {i : Inspector2} {ws2 ws3 : Workstation} {idx : Nat} {now : Time}
    {r : EnqueueResult} {ws2' ws3' : Workstation}
    (h : i.dispatch_component ws2 ws3 idx now = some (r, ws2', ws3'))
    (h2 : ws2.bufInv) (h3 : ws3.bufInv) : ws2'.bufInv ∧ ws3'.bufInv := by
  unfold Inspector2.dispatch_component at h
  dsimp only at h
  split at h
  · exact Option.noConfusion h
  · split at h
    · split at h
      · rw [Option.map_eq_some'] at h
        obtain ⟨⟨r0, w0⟩, henq, heq⟩ := h
        rw [Prod.mk.injEq] at heq
        obtain ⟨-, heq2⟩ := heq
        rw [Prod.mk.injEq] at heq2
        rw [← heq2.1, ← heq2.2]
        exact ⟨enqueue_bufInv henq h2, h3⟩
      · rw [Option.map_eq_some'] at h
        obtain ⟨⟨r0, w0⟩, henq, heq⟩ := h
        rw [Prod.mk.injEq] at heq
        obtain ⟨-, heq2⟩ := heq
        rw [Prod.mk.injEq] at heq2
        rw [← heq2.1, ← heq2.2]
        exact ⟨h2, enqueue_bufInv henq h3⟩
      · exact Option.noConfusion h
    · rw [Option.some.injEq, Prod.mk.injEq] at h
      obtain ⟨-, heq2⟩ := h
      rw [Prod.mk.injEq] at heq2
      rw [← heq2.1, ← heq2.2]
      exact ⟨h2, h3⟩

lemma ins2_try_place_bufInv {i : Inspector2} {ws2 ws3 : Workstation} {now : Time} {eb : Bool}
    {idx : Nat} {res : Option (Option FacilityEvent)} {i' : Inspector2} {ws2' ws3' : Workstation}
    (h : i.try_place ws2 ws3 now eb idx = some (res, i', ws2', ws3'))
    (h2 : ws2.bufInv) (h3 : ws3.bufInv) : ws2'.bufInv ∧ ws3'.bufInv := by
  unfold Inspector2.try_place at h
  split at h
  · exact Option.noConfusion h
  · case _ wsa wsb hdisp =>
    rw [Option.some.injEq, Prod.mk.injEq] at h
    obtain ⟨-, heq2⟩ := h
    rw [Prod.mk.injEq] at heq2
    obtain ⟨-, heq3⟩ := heq2
    rw [Prod.mk.injEq] at heq3
    rw [← heq3.1, ← heq3.2]
    exact ins2_dispatch_bufInv hdisp h2 h3
  · case _ a component ws ts working wsa wsb hdisp =>
    split at h
    · exact Option.noConfusion h
    · split at h
      · exact Option.noConfusion h
      · split at h
        · exact Option.noConfusion h
        · split at h
          · exact Option.noConfusion h
          · rw [Option.some.injEq, Prod.mk.injEq] at h
            obtain ⟨-, heq2⟩ := h
            rw [Prod.mk.injEq] at heq2
            obtain ⟨-, heq3⟩ := heq2
            rw [Prod.mk.injEq] at heq3
            rw [← heq3.1, ← heq3.2]
            exact ins2_dispatch_bufInv hdisp h2 h3

lemma ins2_place_loop_bufInv (lst : List Nat) :
    ∀ {i : Inspector2} {ws2 ws3 : Workstation} {now : Time} {eb : Bool}
      {res : Option (Option FacilityEvent)} {i' : Inspector2} {ws2' ws3' : Workstation},
      Inspector2.place_loop now eb lst i ws2 ws3 = some (res, i', ws2', ws3') →
      ws2.bufInv → ws3.bufInv → ws2'.bufInv ∧ ws3'.bufInv := by
  induction lst with
  | nil =>
    intro i ws2 ws3 now eb res i' ws2' ws3' h h2 h3
    rw [show Inspector2.place_loop now eb [] i ws2 ws3 = some (none, i, ws2, ws3) from rfl,
      Option.some.injEq, Prod.mk.injEq] at h
    obtain ⟨-, heq2⟩ := h
    rw [Prod.mk.injEq] at heq2
    obtain ⟨-, heq3⟩ := heq2
    rw [Prod.mk.injEq] at heq3
    rw [← heq3.1, ← heq3.2]
    exact ⟨h2, h3⟩
  | cons idx rest ih =>
    intro i ws2 ws3 now eb res i' ws2' ws3' h h2 h3
    rw [show Inspector2.place_loop now eb (idx :: rest) i ws2 ws3
      = (match Inspector2.try_place i ws2 ws3 now eb idx with
        | none => none
        | some (some ev, i', ws2', ws3') => some (some ev, i', ws2', ws3')
        | some (none, i', ws2', ws3') =>
          Inspector2.place_loop now eb rest i' ws2' ws3') from rfl] at h
    split at h
    · exact Option.noConfusion h
    · case _ ev i2 wsa wsb htry =>
      rw [Option.some.injEq, Prod.mk.injEq] at h
      obtain ⟨-, heq2⟩ := h
      rw [Prod.mk.injEq] at heq2
      obtain ⟨-, heq3⟩ := heq2
      rw [Prod.mk.injEq] at heq3
      rw [← heq3.1, ← heq3.2]
      exact ins2_try_place_bufInv htry h2 h3
    · case _ i2 wsa wsb htry =>
      obtain ⟨hb2, hb3⟩ := ins2_try_place_bufInv htry h2 h3
      exact ih h hb2 hb3

lemma ins2_place_bufInv {i : Inspector2} {ws2 ws3 : Workstation} {now : Time} {eb : Bool}
    {ev : Option FacilityEvent} {i' : Inspector2} {ws2' ws3' : Workstation}
    (h : i.place_routine ws2 ws3 now eb = some (ev, i', ws2', ws3'))
    (h2 : ws2.bufInv) (h3 : ws3.bufInv) : ws2'.bufInv ∧ ws3'.bufInv := by
  unfold Inspector2.place_routine at h
  split at h
  · exact Option.noConfusion h
  · split at h
    · exact Option.noConfusion h
    · case _ ev2 i2 wsa wsb hloop =>
      rw [Option.some.injEq, Prod.mk.injEq] at h
      obtain ⟨-, heq2⟩ := h
      rw [Prod.mk.injEq] at heq2
      obtain ⟨-, heq3⟩ := heq2
      rw [Prod.mk.injEq] at heq3
      rw [← heq3.1, ← heq3.2]
      exact ins2_place_loop_bufInv _ hloop h2 h3
    · case _ i2 wsa wsb hloop =>
      obtain ⟨hb2, hb3⟩ := ins2_place_loop_bufInv _ hloop h2 h3
      split at h
      · split at h
        · exact Option.noConfusion h
        · split at h
          · exact Option.noConfusion h
          · rw [Option.some.injEq, Prod.mk.injEq] at h
            obtain ⟨-, heq2⟩ := h
            rw [Prod.mk.injEq] at heq2
            obtain ⟨-, heq3⟩ := heq2
            rw [Prod.mk.injEq] at heq3
            rw [← heq3.1, ← heq3.2]
            exact ⟨hb2, hb3⟩
      · split at h
        · rw [Option.map_eq_some'] at h
          obtain ⟨i3, -, heq⟩ := h
          rw [Prod.mk.injEq] at heq
          obtain ⟨-, heq2⟩ := heq
          rw [Prod.mk.injEq] at heq2
          obtain ⟨-, heq3⟩ := heq2
          rw [Prod.mk.injEq] at heq3
          rw [← heq3.1, ← heq3.2]
          exact ⟨hb2, hb3⟩
        · rw [Option.some.injEq, Prod.mk.injEq] at h
          obtain ⟨-, heq2⟩ := h
          rw [Prod.mk.injEq] at heq2
          obtain ⟨-, heq3⟩ := heq2
          rw [Prod.mk.injEq] at heq3
          rw [← heq3.1, ← heq3.2]
          exact ⟨hb2, hb3⟩

lemma ins2_respond_to_bufInv {i : Inspector2} {ws2 ws3 : Workstation} {e : FacilityEvent}
    {ev : Option FacilityEvent} {i' : Inspector2} {ws2' ws3' : Workstation}
    (h : i.respond_to ws2 ws3 e = some (ev, i', ws2', ws3'))
    (h2 : ws2.bufInv) (h3 : ws3.bufInv) : ws2'.bufInv ∧ ws3'.bufInv := by
  unfold Inspector2.respond_to at h
  split at h
  · split at h
    all_goals dsimp only at h
    all_goals split at h
    · exact ins2_place_bufInv h h2 h3
    · rw [Option.some.injEq, Prod.mk.injEq] at h
      obtain ⟨-, heq2⟩ := h
      rw [Prod.mk.injEq] at heq2
      obtain ⟨-, heq3⟩ := heq2
      rw [Prod.mk.injEq] at heq3
      rw [← heq3.1, ← heq3.2]
      exact ⟨h2, h3⟩
    · exact ins2_place_bufInv h h2 h3
    · rw [Option.some.injEq, Prod.mk.injEq] at h
      obtain ⟨-, heq2⟩ := h
      rw [Prod.mk.injEq] at heq2
      obtain ⟨-, heq3⟩ := heq2
      rw [Prod.mk.injEq] at heq3
      rw [← heq3.1, ← heq3.2]
      exact ⟨h2, h3⟩
  · split at h
    · exact Option.noConfusion h
    · split at h
      · exact Option.noConfusion h
      · split at h
        · rw [Option.some.injEq, Prod.mk.injEq] at h
          obtain ⟨-, heq2⟩ := h
          rw [Prod.mk.injEq] at heq2
          obtain ⟨-, heq3⟩ := heq2
          rw [Prod.mk.injEq] at heq3
          rw [← heq3.1, ← heq3.2]
          exact ⟨h2, h3⟩
        · exact Option.noConfusion h
  · rw [Option.some.injEq, Prod.mk.injEq] at h
    obtain ⟨-, heq2⟩ := h
    rw [Prod.mk.injEq] at heq2
    obtain ⟨-, heq3⟩ := heq2
    rw [Prod.mk.injEq] at heq3
    rw [← heq3.1, ← heq3.2]
    exact ⟨h2, h3⟩

lemma ins2_respond_bufInv {i : Inspector2} {ws2 ws3 : Workstation} {now : Time}
    {ev : Option FacilityEvent} {i' : Inspector2} {ws2' ws3' : Workstation}
    (h : i.respond ws2 ws3 now = some (ev, i', ws2', ws3'))
    (h2 : ws2.bufInv) (h3 : ws3.bufInv) : ws2'.bufInv ∧ ws3'.bufInv := by
  unfold Inspector2.respond at h
  split at h
  · exact Option.noConfusion h
  · split at h
    · exact Option.noConfusion h
    · exact ins2_place_bufInv h h2 h3

lemma dispatch_actors_bufInv {f : Facility} {e : FacilityEvent} {f' : Facility}
    (h : f.dispatch_to_simulation_actors e = some f') (hf : f.bufInv) : f'.bufInv := by
  obtain ⟨hb1, hb2, hb3⟩ := hf
  unfold Facility.dispatch_to_simulation_actors at h
  split at h
  · exact Option.noConfusion h
  · case _ w1 hr1 =>
    split at h
    · exact Option.noConfusion h
    · case _ w2 hr2 =>
      split at h
      · exact Option.noConfusion h
      · case _ w3 hr3 =>
        split at h
        · exact Option.noConfusion h
        · case _ i1 wss hr4 =>
          split at h
          · exact Option.noConfusion h
          · case _ i2 w2' w3' hr5 =>
            rw [Option.some.injEq] at h
            have hw1 := ws_respond_to_bufInv hr1 hb1
            have hw2 := ws_respond_to_bufInv hr2 hb2
            have hw3 := ws_respond_to_bufInv hr3 hb3
            have hwss := ins1_respond_to_bufInv hr4 ⟨hw1, hw2, hw3⟩
            have hlast := ins2_respond_to_bufInv hr5 hwss.2.1 hwss.2.2
            rw [← h]
            exact ⟨hwss.1, hlast.1, hlast.2⟩

lemma respondActor_bufInv {f : Facility} {idx : Nat} {now : Time}
    {ev : Option FacilityEvent} {f' : Facility}
    (h : f.respondActor idx now = some (ev, f')) (hf : f.bufInv) : f'.bufInv := by
  obtain ⟨hb1, hb2, hb3⟩ := hf
  unfold Facility.respondActor at h
  split at h
  · rw [Option.map_eq_some'] at h
    obtain ⟨⟨e0, w0⟩, hresp, heq⟩ := h
    rw [Prod.mk.injEq] at heq
    rw [← heq.2]
    exact ⟨respond_bufInv hresp, hb2, hb3⟩
  · rw [Option.map_eq_some'] at h
    obtain ⟨⟨e0, w0⟩, hresp, heq⟩ := h
    rw [Prod.mk.injEq] at heq
    rw [← heq.2]
    exact ⟨hb1, respond_bufInv hresp, hb3⟩
  · rw [Option.map_eq_some'] at h
    obtain ⟨⟨e0, w0⟩, hresp, heq⟩ := h
    rw [Prod.mk.injEq] at heq
    rw [← heq.2]
    exact ⟨hb1, hb2, respond_bufInv hresp⟩
  · rw [Option.map_eq_some'] at h
    obtain ⟨⟨e0, i0, wss0⟩, hresp, heq⟩ := h
    rw [Prod.mk.injEq] at heq
    rw [← heq.2]
    have hw := ins1_respond_bufInv hresp ⟨hb1, hb2, hb3⟩
    exact ⟨hw.1, hw.2.1, hw.2.2⟩
  · rw [Option.map_eq_some'] at h
    obtain ⟨⟨e0, i0, w2', w3'⟩, hresp, heq⟩ := h
    rw [Prod.mk.injEq] at heq
    rw [← heq.2]
    have hw := ins2_respond_bufInv hresp hb2 hb3
    exact ⟨hb1, hw.1, hw.2⟩
  · exact Option.noConfusion h

lemma step_bufInv {f f' : Facility} (h : f.step = .next f') (hf : f.bufInv) : f'.bufInv := by
  unfold Facility.step at h
  split at h
  · exact StepOut.noConfusion h
  · dsimp only at h
    split at h
    · exact StepOut.noConfusion h
    · case _ e f2 hresp =>
      split at h
      · exact StepOut.noConfusion h
      · case _ f3 hdisp =>
        injection h with h2
        rw [← h2]
        exact dispatch_actors_bufInv hdisp (respondActor_bufInv hresp hf)
    · case _ f2 hresp =>
      injection h with h2
      rw [← h2]
      exact respondActor_bufInv hresp hf

lemma init_bufInv (a : InitArgs) : (initFacility a).bufInv := by
  refine ⟨?_, ⟨?_, ?_⟩, ⟨?_, ?_⟩⟩ <;> (intro hx; exact Bool.noConfusion hx)

lemma reachable_bufInv {a : InitArgs} {f : Facility} (h : ReachableState a f) : f.bufInv := by
  rcases h with h | h
  · subst h
    exact init_bufInv a
  · induction h with
    | start hb => exact dispatch_actors_bufInv hb (init_bufInv a)
    | step _ hstep ih => exact step_bufInv hstep ih

/-- C9: in every reachable state of a run, every workstation buffer has its
first slot occupied whenever its second slot is (enqueue and assembly both
preserve this), so `can_work`, which inspects only the first slot of each
required buffer, coincides with every required buffer having at least one
occupied slot. -/
theorem buffer_slots_wellformed {a : InitArgs} {f : Facility}
    (h : ReachableState a f) :
    f.bufInv ∧
    (f.ws1.ws_type.can_work = true ↔ f.ws1.ws_type.canWorkSpec) ∧
    (f.ws2.ws_type.can_work = true ↔ f.ws2.ws_type.canWorkSpec) ∧
    (f.ws3.ws_type.can_work = true ↔ f.ws3.ws_type.canWorkSpec) := by
  have hb := reachable_bufInv h
  exact ⟨hb, bufInv_can_work_iff _ hb.1, bufInv_can_work_iff _ hb.2.1,
    bufInv_can_work_iff _ hb.2.2⟩

lemma postStart_stepIter {a : InitArgs} :
    ∀ (n : Nat) {g f : Facility}, PostStart a g → Facility.stepIter n g = some f →
      PostStart a f := by
  intro n
  induction n with
  | zero =>
    intro g f hg h
    rw [show Facility.stepIter 0 g = some g from rfl, Option.some.injEq] at h
    rw [← h]
    exact hg
  | succ k ih =>
    intro g f hg h
    rw [show Facility.stepIter (k + 1) g
      = (match g.step with
        | .next f' => Facility.stepIter k f'
        | _ => none) from rfl] at h
    split at h
    · case _ f1 hstep => exact ih (PostStart.step hg hstep) h
    · exact Option.noConfusion h

lemma postStart_of_bind {a : InitArgs} {n : Nat} {f : Facility}
    (h : (((initFacility a).dispatch_to_simulation_actors .SimulationStarted).bind
      (Facility.stepIter n)) = some f) : PostStart a f := by
  rcases hb : (initFacility a).dispatch_to_simulation_actors .SimulationStarted with _ | f0
  · rw [hb] at h
    exact Option.noConfusion h
  · rw [hb] at h
    exact postStart_stepIter n (PostStart.start hb) h

/-- Inputs of a concrete run exercising inspector 2: a single very long C1
inspection keeps inspector 1 busy, equal unit C2/C3 supplies, and a
constantly-true random-variate sequence makes inspector 2 fill the C3
buffer first. -/
def cArgs : InitArgs := ⟨[], [], [], [1000], [1, 1, 1], [1, 1, 1], fun _ => true⟩

/-- States of the concrete run after the start broadcast and `n` loop
iterations. -/
def cRun (n : Nat) : Option Facility :=
  ((initFacility cArgs).dispatch_to_simulation_actors .SimulationStarted).bind
    (Facility.stepIter n)

lemma cRun4_some : (cRun 4).isSome = true := by decide

/-- The state of the concrete run at simulated time 4: inspector 2 has just
filled both the C3 buffer of workstation 3 and the C2 buffer of
workstation 2, and holds nothing. -/
def cState4 : Facility := (cRun 4).get cRun4_some

lemma cState4_postStart : PostStart cArgs cState4 :=
  postStart_of_bind (show cRun 4 = some cState4 from (Option.some_get cRun4_some).symm)

/-- Witness for C9 at a concrete mid-run state in which several buffer
slots are occupied. -/
theorem buffer_slots_wellformed_witness :
    cState4.bufInv ∧
    (cState4.ws1.ws_type.can_work = true ↔ cState4.ws1.ws_type.canWorkSpec) ∧
    (cState4.ws2.ws_type.can_work = true ↔ cState4.ws2.ws_type.canWorkSpec) ∧
    (cState4.ws3.ws_type.can_work = true ↔ cState4.ws3.ws_type.canWorkSpec) :=
  buffer_slots_wellformed (Or.inr cState4_postStart)

/-- C4 (counterexample): in a reachable state of a run, inspector 2 reports
itself blocked while holding no component at all — in particular no
finished component rejected by its targets — refuting the claimed
biconditional. -/
theorem inspector_blocked_iff_counterexample :
    ∃ f : Facility, PostStart cArgs f ∧ f.ins2.is_blocked = true ∧
      f.ins2.held_c2 = none ∧ f.ins2.held_c3 = none :=
  ⟨cState4, cState4_postStart, by decide, by decide, by decide⟩

/-- The blocked flag of inspector 1 matches what it holds: blocked states
hold a finished component, unblocked states hold nothing or an unfinished
component being inspected. -/
def Ins1Inv (i : Inspector1) : Prop :=
  (i.is_blocked = true → ∃ c, i.held_component = some c ∧ c.is_finished = true) ∧
  (i.is_blocked = false →
    i.held_component = none ∨ ∃ c, i.held_component = some c ∧ c.is_finished = false)

lemma ins1_inspect_next_inv {i : Inspector1} {now : Time} {oc : Option Component}
    {i' : Inspector1} (h : i.inspect_next now = some (oc, i'))
    (hheld : i.held_component = none) : Ins1Inv i' := by
  unfold Inspector1.inspect_next at h
  split at h
  · exact Option.noConfusion h
  · case _ hnb =>
    split at h
    · rw [Option.some.injEq, Prod.mk.injEq] at h
      obtain ⟨-, hi⟩ := h
      rw [← hi]
      constructor
      · intro hb
        exact absurd hb (by simpa using hnb)
      · intro _
        exact Or.inr ⟨_, rfl, rfl⟩
    · rw [Option.some.injEq, Prod.mk.injEq] at h
      obtain ⟨-, hi⟩ := h
      rw [← hi]
      constructor
      · intro hb
        exact absurd hb (by simpa using hnb)
      · intro _
        exact Or.inl hheld

lemma ins1_place_inv {i : Inspector1} {wss : WS3} {now : Time} {eb : Bool}
    {ev : Option FacilityEvent} {i' : Inspector1} {wss' : WS3}
    (h : i.place_routine wss now eb = some (ev, i', wss'))
    {c : Component} (hheld : i.held_component = some c) (hfin : c.is_finished = true) :
    Ins1Inv i' := by
  unfold Inspector1.place_routine at h
  split at h
  · exact Option.noConfusion h
  · case _ hbe =>
    split at h
    · split at h
      · exact Option.noConfusion h
      · case _ component ws ts working wss2 hdisp =>
        split at h
        · exact Option.noConfusion h
        · dsimp only at h
          split at h
          · exact Option.noConfusion h
          · case _ i2 hub =>
            split at h
            · exact Option.noConfusion h
            · case _ oc i3 hnext =>
              rw [Option.some.injEq, Prod.mk.injEq] at h
              obtain ⟨-, h2⟩ := h
              rw [Prod.mk.injEq] at h2
              rw [← h2.1]
              refine ins1_inspect_next_inv hnext ?_
              split at hub
              · unfold Inspector1.set_unblocked at hub
                split at hub
                · rw [Option.some.injEq] at hub
                  rw [← hub]
                · exact Option.noConfusion hub
              · rw [Option.some.injEq] at hub
                rw [← hub]
      · case _ wss2 hdisp =>
        split at h
        · rw [Option.map_eq_some'] at h
          obtain ⟨i2, hsb, heq⟩ := h
          rw [Prod.mk.injEq] at heq
          obtain ⟨-, heq2⟩ := heq
          rw [Prod.mk.injEq] at heq2
          rw [← heq2.1]
          unfold Inspector1.set_blocked at hsb
          split at hsb
          · exact Option.noConfusion hsb
          · rw [Option.some.injEq] at hsb
            rw [← hsb]
            constructor
            · intro _
              exact ⟨c, hheld, hfin⟩
            · intro hb
              exact Bool.noConfusion hb
        · rw [Option.some.injEq, Prod.mk.injEq] at h
          obtain ⟨-, h2⟩ := h
          rw [Prod.mk.injEq] at h2
          rw [← h2.1]
          case _ hexp =>
            have hbt : i.is_blocked = true := by
              rcases hbb : i.is_blocked
              · rw [hbb] at hbe
                rcases hee : eb
                · rw [hee] at hexp
                  exact absurd rfl hexp
                · rw [hee] at hbe
                  simp at hbe
              · rfl
            constructor
            · intro _
              exact ⟨c, hheld, hfin⟩
            · intro hb
              rw [hbt] at hb
              exact Bool.noConfusion hb
    · case _ hnone =>
      rw [hnone] at hheld
      exact Option.noConfusion hheld

lemma ins1_finish_held {i i' : Inspector1} {now : Time}
    (h : i.finish_inspection now = some i') :
    ∃ c, i'.held_component = some c ∧ c.is_finished = true := by
  unfold Inspector1.finish_inspection at h
  split at h
  · exact Option.noConfusion h
  · case _ c0 hc0 =>
    rw [Option.map_eq_some'] at h
    obtain ⟨c', hfi, heq⟩ := h
    refine ⟨c', by rw [← heq], ?_⟩
    unfold Component.finish_inspecting at hfi
    split at hfi
    · exact Option.noConfusion hfi
    · split at hfi
      · exact Option.noConfusion hfi
      · split at hfi
        · rw [Option.some.injEq] at hfi
          rw [← hfi]
          rfl
        · exact Option.noConfusion hfi

lemma ins1_respond_inv {i : Inspector1} {wss : WS3} {now : Time}
    {ev : Option FacilityEvent} {i' : Inspector1} {wss' : WS3}
    (h : i.respond wss now = some (ev, i', wss')) : Ins1Inv i' := by
  unfold Inspector1.respond at h
  split at h
  · exact Option.noConfusion h
  · split at h
    · exact Option.noConfusion h
    · case _ i1 hfin =>
      obtain ⟨c', hheld1, hfin1⟩ := ins1_finish_held hfin
      exact ins1_place_inv h hheld1 hfin1

lemma ins1_respond_to_start_inv {i : Inspector1} {wss : WS3}
    {ev : Option FacilityEvent} {i' : Inspector1} {wss' : WS3}
    (h : i.respond_to wss .SimulationStarted = some (ev, i', wss')) : Ins1Inv i' := by
  unfold Inspector1.respond_to at h
  split at h
  · exact FacilityEvent.noConfusion (by assumption)
  · split at h
    · exact Option.noConfusion h
    · case _ i1 hub =>
      split at h
      · exact Option.noConfusion h
      · case _ oc i2 hnext =>
        split at h
        · case _ hsome =>
          rw [Option.some.injEq, Prod.mk.injEq] at h
          obtain ⟨-, h2⟩ := h
          rw [Prod.mk.injEq] at h2
          rw [← h2.1]
          unfold Inspector1.inspect_next at hnext
          split at hnext
          · exact Option.noConfusion hnext
          · case _ hnb =>
            split at hnext
            · rw [Option.some.injEq, Prod.mk.injEq] at hnext
              obtain ⟨-, hi⟩ := hnext
              rw [← hi]
              constructor
              · intro hb
                exact absurd hb (by simpa using hnb)
              · intro _
                exact Or.inr ⟨_, rfl, rfl⟩
            · rw [Option.some.injEq, Prod.mk.injEq] at hnext
              obtain ⟨hoc, -⟩ := hnext
              rw [← hoc] at hsome
              exact Bool.noConfusion hsome
        · exact Option.noConfusion h
  · exact absurd rfl (by assumption)

lemma ins1_place_some_blocked {i : Inspector1} {wss : WS3} {now : Time} {eb : Bool}
    {ev : Option FacilityEvent} {i' : Inspector1} {wss' : WS3}
    (h : i.place_routine wss now eb = some (ev, i', wss')) : i.is_blocked = eb := by
  unfold Inspector1.place_routine at h
  split at h
  · exact Option.noConfusion h
  · case _ hbe =>
    have hb2 : (i.is_blocked == eb) = true := by
      rcases hq : (i.is_blocked == eb)
      · rw [hq] at hbe
        exact absurd rfl hbe
      · rfl
    exact eq_of_beq hb2

lemma ins1_respond_to_inv {i : Inspector1} {wss : WS3} {e : FacilityEvent}
    {ev : Option FacilityEvent} {i' : Inspector1} {wss' : WS3}
    (h : i.respond_to wss e = some (ev, i', wss')) (hinv : Ins1Inv i) : Ins1Inv i' := by
  unfold Inspector1.respond_to at h
  split at h
  · split at h
    all_goals dsimp only at h
    all_goals split at h
    · have hb := ins1_place_some_blocked h
      obtain ⟨c, hheld, hfin⟩ := hinv.1 hb
      exact ins1_place_inv h hheld hfin
    · rw [Option.some.injEq, Prod.mk.injEq] at h
      obtain ⟨-, h2⟩ := h
      rw [Prod.mk.injEq] at h2
      rw [← h2.1]
      exact hinv
    · have hb := ins1_place_some_blocked h
      obtain ⟨c, hheld, hfin⟩ := hinv.1 hb
      exact ins1_place_inv h hheld hfin
    · rw [Option.some.injEq, Prod.mk.injEq] at h
      obtain ⟨-, h2⟩ := h
      rw [Prod.mk.injEq] at h2
      rw [← h2.1]
      exact hinv
  · exact ins1_respond_to_start_inv h
  · rw [Option.some.injEq, Prod.mk.injEq] at h
    obtain ⟨-, h2⟩ := h
    rw [Prod.mk.injEq] at h2
    rw [← h2.1]
    exact hinv

lemma dispatch_actors_ins1inv {f f' : Facility} {e : FacilityEvent}
    (h : f.dispatch_to_simulation_actors e = some f') (hinv : Ins1Inv f.ins1) :
    Ins1Inv f'.ins1 := by
  unfold Facility.dispatch_to_simulation_actors at h
  split at h
  · exact Option.noConfusion h
  · split at h
    · exact Option.noConfusion h
    · split at h
      · exact Option.noConfusion h
      · split at h
        · exact Option.noConfusion h
        · case _ i1 wss hr4 =>
          split at h
          · exact Option.noConfusion h
          · rw [Option.some.injEq] at h
            rw [← h]
            exact ins1_respond_to_inv hr4 hinv

lemma dispatch_start_ins1inv {f f' : Facility}
    (h : f.dispatch_to_simulation_actors .SimulationStarted = some f') :
    Ins1Inv f'.ins1 := by
  unfold Facility.dispatch_to_simulation_actors at h
  split at h
  · exact Option.noConfusion h
  · split at h
    · exact Option.noConfusion h
    · split at h
      · exact Option.noConfusion h
      · split at h
        · exact Option.noConfusion h
        · case _ i1 wss hr4 =>
          split at h
          · exact Option.noConfusion h
          · rw [Option.some.injEq] at h
            rw [← h]
            exact ins1_respond_to_start_inv hr4

lemma respondActor_ins1inv {f : Facility} {idx : Nat} {now : Time}
    {ev : Option FacilityEvent} {f' : Facility}
    (h : f.respondActor idx now = some (ev, f')) (hinv : Ins1Inv f.ins1) :
    Ins1Inv f'.ins1 := by
  unfold Facility.respondActor at h
  split at h
  · rw [Option.map_eq_some'] at h
    obtain ⟨⟨e0, w0⟩, -, heq⟩ := h
    rw [Prod.mk.injEq] at heq
    rw [← heq.2]
    exact hinv
  · rw [Option.map_eq_some'] at h
    obtain ⟨⟨e0, w0⟩, -, heq⟩ := h
    rw [Prod.mk.injEq] at heq
    rw [← heq.2]
    exact hinv
  · rw [Option.map_eq_some'] at h
    obtain ⟨⟨e0, w0⟩, -, heq⟩ := h
    rw [Prod.mk.injEq] at heq
    rw [← heq.2]
    exact hinv
  · rw [Option.map_eq_some'] at h
    obtain ⟨⟨e0, i0, wss0⟩, hresp, heq⟩ := h
    rw [Prod.mk.injEq] at heq
    rw [← heq.2]
    exact ins1_respond_inv hresp
  · rw [Option.map_eq_some'] at h
    obtain ⟨⟨e0, i0, w2', w3'⟩, -, heq⟩ := h
    rw [Prod.mk.injEq] at heq
    rw [← heq.2]
    exact hinv
  · exact Option.noConfusion h

lemma step_ins1inv {f f' : Facility} (h : f.step = .next f') (hinv : Ins1Inv f.ins1) :
    Ins1Inv f'.ins1 := by
  unfold Facility.step at h
  split at h
  · exact StepOut.noConfusion h
  · dsimp only at h
    split at h
    · exact StepOut.noConfusion h
    · case _ e f2 hresp =>
      split at h
      · exact StepOut.noConfusion h
      · case _ f3 hdisp =>
        injection h with h2
        rw [← h2]
        exact dispatch_actors_ins1inv hdisp (respondActor_ins1inv hresp hinv)
    · case _ f2 hresp =>
      injection h with h2
      rw [← h2]
      exact respondActor_ins1inv hresp hinv

lemma postStart_ins1inv {a : InitArgs} {f : Facility} (h : PostStart a f) :
    Ins1Inv f.ins1 := by
  induction h with
  | start hb => exact dispatch_start_ins1inv hb
  | step _ hstep ih => exact step_ins1inv hstep ih

/-- C4 (amended): from the `SimulationStarted` broadcast on, Inspector 1
reports itself blocked iff it holds a finished component (necessarily the
one rejected by every workstation and not yet placed); the biconditional
fails for Inspector 2, which also blocks holding nothing when both its
target buffers are full, as the counterexample shows. -/
theorem inspector1_blocked_iff_holds_finished {a : InitArgs} {f : Facility}
    (h : PostStart a f) :
    f.ins1.is_blocked = true ↔
      ∃ c, f.ins1.held_component = some c ∧ c.is_finished = true := by
  have hinv := postStart_ins1inv h
  constructor
  · exact hinv.1
  · rintro ⟨c, hc, hfin⟩
    rcases hblk : f.ins1.is_blocked with _ | _
    · rcases hinv.2 hblk with hnone | ⟨c', hc', hunfin⟩
      · rw [hnone] at hc
        exact Option.noConfusion hc
      · rw [hc', Option.some.injEq] at hc
        rw [hc] at hunfin
        rw [hfin] at hunfin
        exact Bool.noConfusion hunfin
    · rfl

/-- Witness for the amended C4 at the concrete reachable state `cState4`:
inspector 1 is mid-inspection there (unblocked, holding an unfinished C1). -/
theorem inspector1_blocked_iff_holds_finished_witness :
    (cState4.ins1.is_blocked = true ↔
      ∃ c, cState4.ins1.held_component = some c ∧ c.is_finished = true) :=
  inspector1_blocked_iff_holds_finished cState4_postStart

/-- The buffer that `decide_buffer` routes a component of the given kind to
(workstation 1 has a single buffer; elsewhere C1 goes to the first buffer
and C2/C3 to the second). -/
def targetBuffer (t : WSType) (k : CKind) : Buffer :=
  match t with
  | .W1 buf => buf
  | .W2 buf1 buf2 =>
    match k with
    | .c1 => buf1
    | _ => buf2
  | .W3 buf1 buf2 =>
    match k with
    | .c1 => buf1
    | _ => buf2

lemma add_to_buffer_spec (b : Buffer) (c : Component) (now : Time) :
    ((add_to_buffer b c now).1 = false ↔ b.2.isSome = true) ∧
    ((add_to_buffer b c now).1 = false → (add_to_buffer b c now).2 = b) ∧
    ((add_to_buffer b c now).1 = true →
      (add_to_buffer b c now).2 =
        if b.1.isSome = true then (b.1, some { c with enqTime := some now })
        else (some { c with enqTime := some now }, b.2)) := by
  rcases b with ⟨b1, b2⟩
  cases b1 <;> cases b2 <;> simp [add_to_buffer]

lemma decide_buffer_spec (t : WSType) (c : Component) (now : Time) :
    (decide_buffer t c now).1 = (add_to_buffer (targetBuffer t c.kind) c now).1 ∧
    targetBuffer (decide_buffer t c now).2 c.kind
      = (add_to_buffer (targetBuffer t c.kind) c now).2 ∧
    ((decide_buffer t c now).1 = false → (decide_buffer t c now).2 = t) := by
  cases t with
  | W1 buf =>
    obtain ⟨-, hkeep, -⟩ := add_to_buffer_spec buf c now
    refine ⟨rfl, rfl, ?_⟩
    intro hfalse
    simp only [decide_buffer] at hfalse ⊢
    rw [hkeep hfalse]
  | W2 b1 b2 =>
    rcases hk : c.kind
    case c1 =>
      obtain ⟨-, hkeep, -⟩ := add_to_buffer_spec b1 c now
      refine ⟨?_, ?_, ?_⟩
      · simp only [decide_buffer, targetBuffer, hk]
      · simp only [decide_buffer, targetBuffer, hk]
      · intro hfalse
        simp only [decide_buffer, hk] at hfalse ⊢
        rw [hkeep hfalse]
    case c2 =>
      obtain ⟨-, hkeep, -⟩ := add_to_buffer_spec b2 c now
      refine ⟨?_, ?_, ?_⟩
      · simp only [decide_buffer, targetBuffer, hk]
      · simp only [decide_buffer, targetBuffer, hk]
      · intro hfalse
        simp only [decide_buffer, hk] at hfalse ⊢
        rw [hkeep hfalse]
    case c3 =>
      obtain ⟨-, hkeep, -⟩ := add_to_buffer_spec b2 c now
      refine ⟨?_, ?_, ?_⟩
      · simp only [decide_buffer, targetBuffer, hk]
      · simp only [decide_buffer, targetBuffer, hk]
      · intro hfalse
        simp only [decide_buffer, hk] at hfalse ⊢
        rw [hkeep hfalse]
  | W3 b1 b2 =>
    rcases hk : c.kind
    case c1 =>
      obtain ⟨-, hkeep, -⟩ := add_to_buffer_spec b1 c now
      refine ⟨?_, ?_, ?_⟩
      · simp only [decide_buffer, targetBuffer, hk]
      · simp only [decide_buffer, targetBuffer, hk]
      · intro hfalse
        simp only [decide_buffer, hk] at hfalse ⊢
        rw [hkeep hfalse]
    case c2 =>
      obtain ⟨-, hkeep, -⟩ := add_to_buffer_spec b2 c now
      refine ⟨?_, ?_, ?_⟩
      · simp only [decide_buffer, targetBuffer, hk]
      · simp only [decide_buffer, targetBuffer, hk]
      · intro hfalse
        simp only [decide_buffer, hk] at hfalse ⊢
        rw [hkeep hfalse]
    case c3 =>
      obtain ⟨-, hkeep, -⟩ := add_to_buffer_spec b2 c now
      refine ⟨?_, ?_, ?_⟩
      · simp only [decide_buffer, targetBuffer, hk]
      · simp only [decide_buffer, targetBuffer, hk]
      · intro hfalse
        simp only [decide_buffer, hk] at hfalse ⊢
        rw [hkeep hfalse]

/-- C3: for a finished component, `enqueue` never aborts; it returns `Fail`
iff the second slot of the target buffer is already occupied; on acceptance
it stores the component with its enqueue time stamped to the current time,
in the first slot when that is free and in the second otherwise, and the
result reports whether the workstation is already running an assembly. -/
theorem enqueue_contract (w : Workstation) (fl : Bool) (c : Component) (now : Time)
    (hfin : c.is_finished = true) :
    ∃ r w', w.enqueue fl c now = some (r, w') ∧
      (r = .Fail ↔ (targetBuffer w.ws_type c.kind).2.isSome = true) ∧
      (∀ i1 c0 ty ts working, r = .CouldEnqueue i1 c0 ty ts working →
        i1 = fl ∧ c0 = c ∧ ts = now ∧ working = w.is_working ∧ w'.ws_type = ty ∧
        targetBuffer ty c.kind =
          (if (targetBuffer w.ws_type c.kind).1.isSome = true
           then ((targetBuffer w.ws_type c.kind).1, some { c with enqTime := some now })
           else (some { c with enqTime := some now }, (targetBuffer w.ws_type c.kind).2))) := by
  obtain ⟨hf, hkeep, hput⟩ := add_to_buffer_spec (targetBuffer w.ws_type c.kind) c now
  obtain ⟨hd1, hd2, hd3⟩ := decide_buffer_spec w.ws_type c now
  have henq : w.enqueue fl c now =
      (match decide_buffer w.ws_type c now with
      | (true, ty) =>
        some (.CouldEnqueue fl c ty now w.is_working,
          { w with
            ws_type := ty
            buffer_states := w.buffer_states ++ [(now, ty)] })
      | (false, _) => some (.Fail, w)) := by
    unfold Workstation.enqueue
    rw [hfin]
    rfl
  rcases hres : decide_buffer w.ws_type c now with ⟨res, ty0⟩
  rw [hres] at henq hd1 hd2 hd3
  cases res
  · refine ⟨.Fail, w, henq, ?_, ?_⟩
    · simp only [true_iff]
      rw [← hf, ← hd1]
    · intro i1 c0 ty ts working hcon
      exact EnqueueResult.noConfusion hcon
  · refine ⟨.CouldEnqueue fl c ty0 now w.is_working,
      { w with
        ws_type := ty0
        buffer_states := w.buffer_states ++ [(now, ty0)] }, henq, ?_, ?_⟩
    · constructor
      · intro hcon
        exact EnqueueResult.noConfusion hcon
      · intro hsnd
        exfalso
        have hatb : (add_to_buffer (targetBuffer w.ws_type c.kind) c now).1 = false :=
          hf.mpr hsnd
        rw [← hd1] at hatb
        exact Bool.noConfusion hatb
    · intro i1 c0 ty ts working hcon
      rw [EnqueueResult.CouldEnqueue.injEq] at hcon
      obtain ⟨h1, h2, h3, h4, h5⟩ := hcon
      refine ⟨h1.symm, h2.symm, h4.symm, h5.symm, by rw [← h3], ?_⟩
      rw [← h3]
      rw [hd2]
      exact hput (by rw [← hd1])

/-- Witness for C3: a W2 workstation with one C2 already in the buffer
accepts a second one into the second slot. -/
def cFinC2 : Component := ⟨.c2, 2, some 0, some 2, none⟩

def cWsHalf : Workstation :=
  { Workstation.mkNew (.W2 (none, none) (some cFinC2, none)) [] with
    current_duration := some (0, 7) }

theorem enqueue_contract_witness :
    ∃ r w', cWsHalf.enqueue false cFinC2 3 = some (r, w') ∧
      (r = .Fail ↔ (targetBuffer cWsHalf.ws_type cFinC2.kind).2.isSome = true) ∧
      (∀ i1 c0 ty ts working, r = .CouldEnqueue i1 c0 ty ts working →
        i1 = false ∧ c0 = cFinC2 ∧ ts = 3 ∧ working = cWsHalf.is_working ∧
        w'.ws_type = ty ∧
        targetBuffer ty cFinC2.kind =
          (if (targetBuffer cWsHalf.ws_type cFinC2.kind).1.isSome = true
           then ((targetBuffer cWsHalf.ws_type cFinC2.kind).1,
             some { cFinC2 with enqTime := some 3 })
           else (some { cFinC2 with enqTime := some 3 },
             (targetBuffer cWsHalf.ws_type cFinC2.kind).2))) :=
  enqueue_contract cWsHalf false cFinC2 3 (by decide)

lemma ws_enqueue_fail_eq {w : Workstation} {fl : Bool} {c : Component} {now : Time}
    {w' : Workstation} (h : w.enqueue fl c now = some (.Fail, w')) : w' = w := by
  unfold Workstation.enqueue at h
  split at h
  · exact Option.noConfusion h
  · split at h
    · rw [Option.some.injEq, Prod.mk.injEq] at h
      exact absurd h.1.symm (fun hc => EnqueueResult.noConfusion hc)
    · rw [Option.some.injEq, Prod.mk.injEq] at h
      exact h.2.symm

lemma ins2_set_blocked_held {i i' : Inspector2} {now : Time}
    (h : i.set_blocked now = some i') :
    i'.held_c2 = i.held_c2 ∧ i'.held_c3 = i.held_c3 := by
  unfold Inspector2.set_blocked at h
  split at h
  · exact Option.noConfusion h
  · rw [Option.some.injEq] at h
    exact ⟨by rw [← h], by rw [← h]⟩

lemma ins2_set_unblocked_held {i i' : Inspector2} {now : Time}
    (h : i.set_unblocked now = some i') :
    i'.held_c2 = i.held_c2 ∧ i'.held_c3 = i.held_c3 := by
  unfold Inspector2.set_unblocked at h
  split at h
  · rw [Option.some.injEq] at h
    exact ⟨by rw [← h], by rw [← h]⟩
  · exact Option.noConfusion h

lemma ins2_decide_held {i : Inspector2} {ws2 ws3 : Workstation} {oc : Option Component}
    {i1 : Inspector2} (h : i.decide_next_component ws2 ws3 = some (oc, i1)) :
    i1.held_c2 = i.held_c2 ∧ i1.held_c3 = i.held_c3 := by
  unfold Inspector2.decide_next_component at h
  repeat'
    first
      | split at h
      | dsimp only at h
  all_goals
    first
      | exact Option.noConfusion h
      | (rw [Option.some.injEq, Prod.mk.injEq] at h
         constructor
         · rw [← h.2] <;> simp [Inspector2.boolean]
         · rw [← h.2] <;> simp [Inspector2.boolean])

lemma ins2_inspect_next_held {i : Inspector2} {ws2 ws3 : Workstation} {now : Time}
    {oc : Option Component} {i' : Inspector2}
    (h : i.inspect_next ws2 ws3 now = some (oc, i')) :
    (∀ c, i.held_c2 = some c → i'.held_c2 = some c) ∧
    (∀ c, i.held_c3 = some c → i'.held_c3 = some c) := by
  unfold Inspector2.inspect_next at h
  split at h
  · exact Option.noConfusion h
  · case _ c0 i1 hdec =>
    have hd := ins2_decide_held hdec
    dsimp only at h
    split at h
    · exact Option.noConfusion h
    · split at h
      · exact Option.noConfusion h
      · case _ hfree =>
        rw [Option.some.injEq, Prod.mk.injEq] at h
        obtain ⟨-, hi⟩ := h
        constructor
        · intro c hc
          rw [hd.1, hc] at hfree
          exact absurd rfl hfree
        · intro c hc
          rw [← hi]
          try dsimp only
          rw [hd.2]
          exact hc
    · split at h
      · exact Option.noConfusion h
      · case _ hfree =>
        rw [Option.some.injEq, Prod.mk.injEq] at h
        obtain ⟨-, hi⟩ := h
        constructor
        · intro c hc
          rw [← hi]
          try dsimp only
          rw [hd.1]
          exact hc
        · intro c hc
          rw [hd.2, hc] at hfree
          exact absurd rfl hfree
  · case _ i1 hdec =>
    have hd := ins2_decide_held hdec
    split at h
    · exact Option.noConfusion h
    · case _ i2 hsb =>
      rw [Option.some.injEq, Prod.mk.injEq] at h
      obtain ⟨-, hi⟩ := h
      have hsbh := ins2_set_blocked_held hsb
      constructor
      · intro c hc
        rw [← hi]
        dsimp only
        rw [hsbh.1, hd.1]
        exact hc
      · intro c hc
        rw [← hi]
        dsimp only
        rw [hsbh.2, hd.2]
        exact hc

lemma ins2_dispatch_fail_unchanged {i : Inspector2} {ws2 ws3 s2 s3 : Workstation}
    {idx : Nat} {now : Time}
    (h : i.dispatch_component ws2 ws3 idx now = some (.Fail, s2, s3)) :
    s2 = ws2 ∧ s3 = ws3 := by
  unfold Inspector2.dispatch_component at h
  dsimp only at h
  split at h
  · exact Option.noConfusion h
  · case _ c hc =>
    split at h
    · split at h
      · rw [Option.map_eq_some'] at h
        obtain ⟨⟨r0, w0⟩, henq, heq⟩ := h
        rw [Prod.mk.injEq] at heq
        have hr : r0 = .Fail := heq.1
        have heq2 : (w0, ws3) = (s2, s3) := heq.2
        rw [Prod.mk.injEq] at heq2
        rw [hr] at henq
        constructor
        · rw [← heq2.1]
          exact ws_enqueue_fail_eq henq
        · exact heq2.2.symm
      · rw [Option.map_eq_some'] at h
        obtain ⟨⟨r0, w0⟩, henq, heq⟩ := h
        rw [Prod.mk.injEq] at heq
        have hr : r0 = .Fail := heq.1
        have heq2 : (ws2, w0) = (s2, s3) := heq.2
        rw [Prod.mk.injEq] at heq2
        rw [hr] at henq
        constructor
        · exact heq2.1.symm
        · rw [← heq2.2]
          exact ws_enqueue_fail_eq henq
      · exact Option.noConfusion h
    · rw [Option.some.injEq, Prod.mk.injEq] at h
      obtain ⟨-, heq2⟩ := h
      rw [Prod.mk.injEq] at heq2
      exact ⟨heq2.1.symm, heq2.2.symm⟩

lemma ins2_place_loop_all_fail (now : Time) (eb : Bool) (idxs : List Nat)
    (i : Inspector2) (ws2 ws3 : Workstation)
    (hfail : ∀ idx r s2 s3, idx ∈ idxs →
      i.dispatch_component ws2 ws3 idx now = some (r, s2, s3) → r = .Fail) :
    Inspector2.place_loop now eb idxs i ws2 ws3 = some (none, i, ws2, ws3) ∨
    Inspector2.place_loop now eb idxs i ws2 ws3 = none := by
  induction idxs with
  | nil => exact Or.inl rfl
  | cons idx rest ih =>
    have hrec := ih (fun j r s2 s3 hj hd => hfail j r s2 s3 (List.mem_cons_of_mem _ hj) hd)
    simp only [Inspector2.place_loop, Inspector2.try_place]
    cases hd : i.dispatch_component ws2 ws3 idx now with
    | none => exact Or.inr rfl
    | some rs =>
      obtain ⟨r, s2, s3⟩ := rs
      have hr : r = .Fail := hfail idx r s2 s3 (List.mem_cons_self _ _) hd
      subst hr
      obtain ⟨h2, h3⟩ := ins2_dispatch_fail_unchanged hd
      subst h2
      subst h3
      exact hrec

/-- C10: a rejected enqueue leaves the workstation record exactly as it was
(buffers, buffer-state log, duration supply, running marker); both
inspectors' dispatches leave every workstation unchanged when the enqueue
fails, and the shared place routine — for inspector 1 and for inspector 2
alike, whether called fresh or as a blocked retry — keeps every held
component when every dispatch attempt fails (only the blocked flag and its
log change). -/
theorem enqueue_fail_leaves_state_unchanged :
    (∀ (w : Workstation) (fl : Bool) (c : Component) (now : Time) (w' : Workstation),
      w.enqueue fl c now = some (.Fail, w') → w' = w) ∧
    (∀ (i : Inspector1) (wss wss' : WS3) (now : Time),
      i.dispatch_component wss now = some (.Fail, wss') → wss' = wss) ∧
    (∀ (i : Inspector1) (wss wss' : WS3) (now : Time) (eb : Bool)
      (ev : Option FacilityEvent) (i' : Inspector1),
      i.place_routine wss now eb = some (ev, i', wss') →
      (∀ r wssd, i.dispatch_component wss now = some (r, wssd) → r = .Fail) →
      i'.held_component = i.held_component ∧ wss' = wss) ∧
    (∀ (i : Inspector2) (ws2 ws3 s2 s3 : Workstation) (idx : Nat) (now : Time),
      i.dispatch_component ws2 ws3 idx now = some (.Fail, s2, s3) →
      s2 = ws2 ∧ s3 = ws3) ∧
    (∀ (i : Inspector2) (ws2 ws3 ws2' ws3' : Workstation) (now : Time) (eb : Bool)
      (ev : Option FacilityEvent) (i' : Inspector2),
      i.place_routine ws2 ws3 now eb = some (ev, i', ws2', ws3') →
      (∀ idx r s2 s3, i.dispatch_component ws2 ws3 idx now = some (r, s2, s3) →
        r = .Fail) →
      (∀ c, i.held_c2 = some c → i'.held_c2 = some c) ∧
      (∀ c, i.held_c3 = some c → i'.held_c3 = some c) ∧
      ws2' = ws2 ∧ ws3' = ws3) := by
  have hA : ∀ (w : Workstation) (fl : Bool) (c : Component) (now : Time) (w' : Workstation),
      w.enqueue fl c now = some (.Fail, w') → w' = w :=
    fun w fl c now w' h => ws_enqueue_fail_eq h
  have hB : ∀ (i : Inspector1) (wss wss' : WS3) (now : Time),
      i.dispatch_component wss now = some (.Fail, wss') → wss' = wss := by
    intro i wss wss' now h
    unfold Inspector1.dispatch_component at h
    split at h
    · exact Option.noConfusion h
    · split at h
      · exact Option.noConfusion h
      · split at h
        · exact Option.noConfusion h
        · dsimp only at h
          split at h
          · rw [Option.map_eq_some'] at h
            obtain ⟨⟨r0, w0⟩, henq, heq⟩ := h
            rw [Prod.mk.injEq] at heq
            have hr : r0 = .Fail := heq.1
            have hw : (w0, wss.2.1, wss.2.2) = wss' := heq.2
            rw [hr] at henq
            have hw0 : w0 = wss.1 := hA _ _ _ _ _ henq
            rw [← hw, hw0]
          · split at h
            · rw [Option.map_eq_some'] at h
              obtain ⟨⟨r0, w0⟩, henq, heq⟩ := h
              rw [Prod.mk.injEq] at heq
              have hr : r0 = .Fail := heq.1
              have hw : (wss.1, w0, wss.2.2) = wss' := heq.2
              rw [hr] at henq
              have hw0 : w0 = wss.2.1 := hA _ _ _ _ _ henq
              rw [← hw, hw0]
            · split at h
              · rw [Option.map_eq_some'] at h
                obtain ⟨⟨r0, w0⟩, henq, heq⟩ := h
                rw [Prod.mk.injEq] at heq
                have hr : r0 = .Fail := heq.1
                have hw : (wss.1, wss.2.1, w0) = wss' := heq.2
                rw [hr] at henq
                have hw0 : w0 = wss.2.2 := hA _ _ _ _ _ henq
                rw [← hw, hw0]
              · exact Option.noConfusion h
  refine ⟨hA, hB, ?_, fun i ws2 ws3 s2 s3 idx now h => ins2_dispatch_fail_unchanged h, ?_⟩
  · intro i wss wss' now eb ev i' h hall
    unfold Inspector1.place_routine at h
    split at h
    · exact Option.noConfusion h
    · split at h
      · split at h
        · exact Option.noConfusion h
        · case _ component ws ts working wss2 hdisp =>
          exact absurd (hall _ _ hdisp) (fun hc => EnqueueResult.noConfusion hc)
        · case _ wss2 hdisp =>
          split at h
          · rw [Option.map_eq_some'] at h
            obtain ⟨i2, hsb, heq⟩ := h
            rw [Prod.mk.injEq] at heq
            obtain ⟨-, heq2⟩ := heq
            rw [Prod.mk.injEq] at heq2
            constructor
            · rw [← heq2.1]
              unfold Inspector1.set_blocked at hsb
              split at hsb
              · exact Option.noConfusion hsb
              · rw [Option.some.injEq] at hsb
                rw [← hsb]
            · rw [← heq2.2]
              exact hB _ _ _ _ hdisp
          · rw [Option.some.injEq, Prod.mk.injEq] at h
            obtain ⟨-, heq2⟩ := h
            rw [Prod.mk.injEq] at heq2
            constructor
            · rw [← heq2.1]
            · rw [← heq2.2]
              exact hB _ _ _ _ hdisp
      · split at h
        · rw [Option.map_eq_some'] at h
          obtain ⟨i2, hsb, heq⟩ := h
          rw [Prod.mk.injEq] at heq
          obtain ⟨-, heq2⟩ := heq
          rw [Prod.mk.injEq] at heq2
          constructor
          · rw [← heq2.1]
            unfold Inspector1.set_blocked at hsb
            split at hsb
            · exact Option.noConfusion hsb
            · rw [Option.some.injEq] at hsb
              rw [← hsb]
          · exact heq2.2.symm
        · rw [Option.some.injEq, Prod.mk.injEq] at h
          obtain ⟨-, heq2⟩ := h
          rw [Prod.mk.injEq] at heq2
          exact ⟨by rw [← heq2.1], heq2.2.symm⟩
  · intro i ws2 ws3 ws2' ws3' now eb ev i' h hfail
    unfold Inspector2.place_routine at h
    split at h
    · exact Option.noConfusion h
    · have hloop := ins2_place_loop_all_fail now eb (i.held_components true) i ws2 ws3
        (fun idx r s2 s3 _ hd => hfail idx r s2 s3 hd)
      cases hloop with
      | inr hnone =>
        rw [hnone] at h
        exact Option.noConfusion h
      | inl hok =>
        rw [hok] at h
        dsimp only at h
        split at h
        · split at h
          · exact Option.noConfusion h
          · case _ oc0 i2 hin =>
            split at h
            · exact Option.noConfusion h
            · case _ i3 hsu =>
              rw [Option.some.injEq, Prod.mk.injEq] at h
              obtain ⟨-, h2⟩ := h
              rw [Prod.mk.injEq] at h2
              obtain ⟨hi, h3⟩ := h2
              rw [Prod.mk.injEq] at h3
              obtain ⟨hheld2, hheld3⟩ := ins2_inspect_next_held hin
              have hsuh := ins2_set_unblocked_held hsu
              refine ⟨?_, ?_, h3.1.symm, h3.2.symm⟩
              · intro c hc
                rw [← hi, hsuh.1]
                exact hheld2 c hc
              · intro c hc
                rw [← hi, hsuh.2]
                exact hheld3 c hc
        · split at h
          · rw [Option.map_eq_some'] at h
            obtain ⟨i2, hsb, heq⟩ := h
            rw [Prod.mk.injEq] at heq
            obtain ⟨-, heq2⟩ := heq
            rw [Prod.mk.injEq] at heq2
            obtain ⟨hi, h3⟩ := heq2
            rw [Prod.mk.injEq] at h3
            have hsbh := ins2_set_blocked_held hsb
            refine ⟨?_, ?_, h3.1.symm, h3.2.symm⟩
            · intro c hc
              rw [← hi, hsbh.1]
              exact hc
            · intro c hc
              rw [← hi, hsbh.2]
              exact hc
          · rw [Option.some.injEq, Prod.mk.injEq] at h
            obtain ⟨-, h2⟩ := h
            rw [Prod.mk.injEq] at h2
            obtain ⟨hi, h3⟩ := h2
            rw [Prod.mk.injEq] at h3
            refine ⟨?_, ?_, h3.1.symm, h3.2.symm⟩
            · intro c hc
              rw [← hi]
              exact hc
            · intro c hc
              rw [← hi]
              exact hc

/-- Witness for C10: a full W1 buffer rejects a C1 and is returned intact,
and inspector 2 holding one unfinished C2 (every dispatch fails) comes out
of its place routine still holding it, with both workstations untouched. -/
def cFinC1w : Component := ⟨.c1, 1, some 0, some 1, none⟩

def cWsFull : Workstation :=
  Workstation.mkNew (.W1 (some cFinC1w, some cFinC1w)) [5]

def uC2 : Component := ⟨.c2, 7, some 0, none, none⟩

def cIns2w : Inspector2 :=
  { Inspector2.mkNew [] [] (fun _ => true) with
    held_c2 := some uC2
    is_blocked := false }

def cIns2wOut : Inspector2 := { cIns2w with blocked_times := [2, 2] }

theorem enqueue_fail_leaves_state_unchanged_witness :
    (∀ w', cWsFull.enqueue true cFinC1w 2 = some (.Fail, w') → w' = cWsFull) ∧
    cIns2wOut.held_c2 = some uC2 :=
  ⟨fun w' h => enqueue_fail_leaves_state_unchanged.1 cWsFull true cFinC1w 2 w' h,
    (enqueue_fail_leaves_state_unchanged.2.2.2.2 cIns2w cWsFull cWsFull cWsFull cWsFull
        2 false none cIns2wOut rfl (by
          intro idx r s2 s3 hd
          unfold Inspector2.dispatch_component at hd
          dsimp only at hd
          split at hd
          · exact Option.noConfusion hd
          · case _ c hc =>
            have hcu : c = uC2 := by
              split at hc
              · have h2 : some uC2 = some c := hc
                rw [Option.some.injEq] at h2
                exact h2.symm
              · exact Option.noConfusion (show (none : Option Component) = some c from hc)
              · exact Option.noConfusion hc
            subst hcu
            split at hd
            · case _ hfin => exact absurd hfin (by decide)
            · have h2 : some (EnqueueResult.Fail, cWsFull, cWsFull) = some (r, s2, s3) := hd
              rw [Option.some.injEq, Prod.mk.injEq] at h2
              exact h2.1.symm)).1 uC2 rfl⟩

lemma take_first_avail_spec {b : Buffer} {c : Component} {b' : Buffer}
    (h : take_first_avail b = some (c, b')) :
    (b.2 = some c ∧ b' = (b.1, none)) ∨ (b.2 = none ∧ b.1 = some c ∧ b' = (none, none)) := by
  rcases b with ⟨b1, b2⟩
  cases b2
  · cases b1
    · exact Option.noConfusion h
    · simp only [take_first_avail, Option.some.injEq, Prod.mk.injEq] at h
      exact Or.inr ⟨rfl, by rw [h.1], h.2.symm⟩
  · simp only [take_first_avail, Option.some.injEq, Prod.mk.injEq] at h
    exact Or.inl ⟨by rw [h.1], h.2.symm⟩

lemma product_make_p1 {c : Component} {ts : Time} {p : Product}
    (h : Product.make c none ts = some p) : p = .P1 c ts := by
  simp only [Product.make] at h
  split at h
  · rw [Option.some.injEq] at h
    exact h.symm
  · exact Option.noConfusion h

lemma product_make_pair {c1 c2 : Component} {ts : Time} {p : Product}
    (h : Product.make c1 (some c2) ts = some p) :
    p = .P2 c1 c2 ts ∨ p = .P3 c1 c2 ts := by
  simp only [Product.make] at h
  split at h
  · split at h
    · rw [Option.some.injEq] at h
      exact Or.inl h.symm
    · exact Option.noConfusion h
  · split at h
    · rw [Option.some.injEq] at h
      exact Or.inr h.symm
    · exact Option.noConfusion h
  · exact Option.noConfusion h

lemma assemble_shape {w : Workstation} {ts : Time} {p : Product} {ty : WSType}
    (h : w.assemble ts = some (p, ty)) :
    (∃ buf c b', w.ws_type = .W1 buf ∧ take_first_avail buf = some (c, b') ∧
      ty = .W1 b' ∧ p = .P1 c ts) ∨
    (∃ b1 b2 c1 c2 b1' b2', w.ws_type = .W2 b1 b2 ∧
      take_first_avail b1 = some (c1, b1') ∧ take_first_avail b2 = some (c2, b2') ∧
      ty = .W2 b1' b2' ∧ (p = .P2 c1 c2 ts ∨ p = .P3 c1 c2 ts)) ∨
    (∃ b1 b2 c1 c2 b1' b2', w.ws_type = .W3 b1 b2 ∧
      take_first_avail b1 = some (c1, b1') ∧ take_first_avail b2 = some (c2, b2') ∧
      ty = .W3 b1' b2' ∧ (p = .P2 c1 c2 ts ∨ p = .P3 c1 c2 ts)) := by
  unfold Workstation.assemble at h
  split at h
  · exact Option.noConfusion h
  · split at h
    · case _ buf hty =>
      split at h
      · exact Option.noConfusion h
      · case _ c b' htake =>
        rw [Option.map_eq_some'] at h
        obtain ⟨p0, hmk, heq⟩ := h
        rw [Prod.mk.injEq] at heq
        refine Or.inl ⟨buf, c, b', hty, htake, heq.2.symm, ?_⟩
        rw [← heq.1]
        exact product_make_p1 hmk
    · case _ b1 b2 hty =>
      split at h
      · exact Option.noConfusion h
      · case _ c1 b1' htake1 =>
        split at h
        · exact Option.noConfusion h
        · case _ c2 b2' htake2 =>
          rw [Option.map_eq_some'] at h
          obtain ⟨p0, hmk, heq⟩ := h
          rw [Prod.mk.injEq] at heq
          refine Or.inr (Or.inl ⟨b1, b2, c1, c2, b1', b2', hty, htake1, htake2,
            heq.2.symm, ?_⟩)
          rw [← heq.1]
          exact product_make_pair hmk
    · case _ b1 b2 hty =>
      split at h
      · exact Option.noConfusion h
      · case _ c1 b1' htake1 =>
        split at h
        · exact Option.noConfusion h
        · case _ c2 b2' htake2 =>
          rw [Option.map_eq_some'] at h
          obtain ⟨p0, hmk, heq⟩ := h
          rw [Prod.mk.injEq] at heq
          refine Or.inr (Or.inr ⟨b1, b2, c1, c2, b1', b2', hty, htake1, htake2,
            heq.2.symm, ?_⟩)
          rw [← heq.1]
          exact product_make_pair hmk

/-- C2: when a workstation's timer fires, it consumes exactly one component
from each required buffer — the one in the second slot when occupied, else
the one in the first slot — constructs the product from exactly those
components, clears the running-assembly marker, immediately starts the next
assembly (popping the next supplied duration) when `can_work` still holds,
and emits exactly one `Assembled` event. -/
theorem workstation_timer_contract :
    (∀ (b : Buffer) (c : Component) (b' : Buffer), take_first_avail b = some (c, b') →
      (b.2 = some c ∧ b' = (b.1, none)) ∨ (b.2 = none ∧ b.1 = some c ∧ b' = (none, none))) ∧
    (∀ (w : Workstation) (ts : Time) (p : Product) (ty : WSType),
      w.assemble ts = some (p, ty) →
      (∃ buf c b', w.ws_type = .W1 buf ∧ take_first_avail buf = some (c, b') ∧
        ty = .W1 b' ∧ p = .P1 c ts) ∨
      (∃ b1 b2 c1 c2 b1' b2', w.ws_type = .W2 b1 b2 ∧
        take_first_avail b1 = some (c1, b1') ∧ take_first_avail b2 = some (c2, b2') ∧
        ty = .W2 b1' b2' ∧ (p = .P2 c1 c2 ts ∨ p = .P3 c1 c2 ts)) ∨
      (∃ b1 b2 c1 c2 b1' b2', w.ws_type = .W3 b1 b2 ∧
        take_first_avail b1 = some (c1, b1') ∧ take_first_avail b2 = some (c2, b2') ∧
        ty = .W3 b1' b2' ∧ (p = .P2 c1 c2 ts ∨ p = .P3 c1 c2 ts))) ∧
    (∀ (w : Workstation) (now : Time) (e : FacilityEvent) (w' : Workstation),
      w.respond now = some (e, w') →
      ∃ p ty, e = .Assembled p ty ∧
        ({ w with current_duration := none } : Workstation).assemble now = some (p, ty) ∧
        w'.ws_type = ty ∧ w'.products = w.products ++ [p] ∧
        w'.buffer_states = w.buffer_states ++ [(now, ty)] ∧
        (ty.can_work = true →
          ∃ d0 rest, w.assembly_durations = d0 :: rest ∧
            w'.current_duration = some (now, d0) ∧ w'.assembly_durations = rest) ∧
        (ty.can_work = false →
          w'.current_duration = none ∧ w'.assembly_durations = w.assembly_durations)) := by
  refine ⟨fun b c b' h => take_first_avail_spec h, fun w ts p ty h => assemble_shape h, ?_⟩
  intro w now e w' h
  unfold Workstation.respond at h
  split at h
  · exact Option.noConfusion h
  · split at h
    · dsimp only at h
      split at h
      · exact Option.noConfusion h
      · case _ p ty hasm =>
        refine ⟨p, ty, ?_⟩
        split at h
        · case _ hcw =>
          rw [Option.map_eq_some'] at h
          obtain ⟨w3, hstart, heq⟩ := h
          rw [Prod.mk.injEq] at heq
          unfold Workstation.start at hstart
          split at hstart
          · exact Option.noConfusion hstart
          · split at hstart
            · exact Option.noConfusion hstart
            · case _ d0 rest hdur =>
              rw [Option.some.injEq] at hstart
              refine ⟨heq.1.symm, hasm, ?_, ?_, ?_, ?_, ?_⟩
              · rw [← heq.2, ← hstart]
              · rw [← heq.2, ← hstart]
              · rw [← heq.2, ← hstart]
              · intro _
                exact ⟨d0, rest, hdur, by rw [← heq.2, ← hstart], by rw [← heq.2, ← hstart]⟩
              · intro hcw'
                rw [hcw] at hcw'
                exact Bool.noConfusion hcw'
        · case _ hcw =>
          rw [Option.some.injEq, Prod.mk.injEq] at h
          refine ⟨h.1.symm, hasm, by rw [← h.2], by rw [← h.2], by rw [← h.2], ?_, ?_⟩
          · intro hcw'
            rw [hcw'] at hcw
            exact absurd rfl hcw
          · intro _
            exact ⟨by rw [← h.2], by rw [← h.2]⟩
    · exact Option.noConfusion h

/-- Witness for C2: a W1 workstation with both slots full finishes an
assembly at time 3, consumes the second-slot component, and immediately
restarts with the next supplied duration. -/
def cFinC1a : Component := ⟨.c1, 1, some 0, some 1, none⟩

def cFinC1b : Component := ⟨.c1, 2, some 0, some 2, none⟩

def cWsRun : Workstation :=
  { Workstation.mkNew (.W1 (some cFinC1a, some cFinC1b)) [4] with
    current_duration := some (0, 3) }

theorem workstation_timer_contract_witness :
    ∃ p ty, FacilityEvent.Assembled (.P1 cFinC1b 3) (.W1 (some cFinC1a, none))
        = .Assembled p ty ∧
      ({ cWsRun with current_duration := none } : Workstation).assemble 3 = some (p, ty) ∧
      (cWsRun.respond 3).elim False (fun ew => ew.2.ws_type = ty) ∧
      (ty.can_work = true →
        ∃ d0 rest, cWsRun.assembly_durations = d0 :: rest) := by
  obtain ⟨e, w', hre⟩ : ∃ e w', cWsRun.respond 3 = some (e, w') := by
    refine ⟨.Assembled (.P1 cFinC1b 3) (.W1 (some cFinC1a, none)),
      ⟨[], some (3, 4), .W1 (some cFinC1a, none),
        [.P1 cFinC1b 3],
        [(timeStampStart, .W1 (some cFinC1a, some cFinC1b)), (3, .W1 (some cFinC1a, none))]⟩,
      ?_⟩
    decide
  obtain ⟨p, ty, he, hasm, hty, -, -, hstart, -⟩ :=
    workstation_timer_contract.2.2 cWsRun 3 e w' hre
  have he2 : e = .Assembled (.P1 cFinC1b 3) (.W1 (some cFinC1a, none)) := by
    rw [he] at hre
    rw [show cWsRun.respond 3
      = some (.Assembled (.P1 cFinC1b 3) (.W1 (some cFinC1a, none)),
        ⟨[], some (3, 4), .W1 (some cFinC1a, none), [.P1 cFinC1b 3],
          [(timeStampStart, .W1 (some cFinC1a, some cFinC1b)),
            (3, .W1 (some cFinC1a, none))]⟩) from by decide] at hre
    rw [Option.some.injEq, Prod.mk.injEq] at hre
    rw [he]
    exact hre.1.symm
  refine ⟨p, ty, by rw [← he, he2], hasm, ?_, fun hcw =>
    (hstart hcw).elim (fun d0 hrest => hrest.elim (fun rest hh => ⟨d0, rest, hh.1⟩))⟩
  rw [hre]
  exact hty

/-- The target-selection rule actually implemented by
`Inspector1::dispatch_component` (with `USE_NEW_STRATEGY = true`): workstation
1 only when its C1-waiting count is strictly below both others, otherwise
workstation 2 whenever its count is a (weak) minimum, otherwise workstation 3. -/
def dispatchChoice (a0 a1 a2 : Nat) : WSKind :=
  if a0 < a1 ∧ a0 < a2 then .w1
  else if a1 ≤ a2 ∧ a1 ≤ a0 then .w2
  else .w3

/-- The C1-waiting count of the chosen workstation. -/
def countAt (k : WSKind) (a0 a1 a2 : Nat) : Nat :=
  match k with
  | .w1 => a0
  | .w2 => a1
  | .w3 => a2

def cFinC1d : Component := ⟨.c1, 5, some 0, some 5, none⟩

def cwEmpty1 : Workstation := Workstation.mkNew (.W1 (none, none)) []

def cwEmpty2 : Workstation := Workstation.mkNew (.W2 (none, none) (none, none)) []

def cwEmpty3 : Workstation := Workstation.mkNew (.W3 (none, none) (none, none)) []

def cIns1d : Inspector1 :=
  { Inspector1.mkNew [] with
    held_component := some cFinC1d
    is_blocked := false }

/-- Counterexample to C5: with all three workstations tied at zero C1
components waiting, `dispatch_component` enqueues at workstation 2 (its
count rises to 1 while workstation 1 and 3 stay at 0), refuting the claimed
tie-break in favour of workstation 1. -/
theorem dispatch_tie_counterexample :
    cwEmpty1.c1_in_waiting = 0 ∧ cwEmpty2.c1_in_waiting = 0 ∧
    cwEmpty3.c1_in_waiting = 0 ∧
    (cIns1d.dispatch_component (cwEmpty1, cwEmpty2, cwEmpty3) 5).elim False
      (fun out => out.2.1.c1_in_waiting = 0 ∧ out.2.2.1.c1_in_waiting = 1 ∧
        out.2.2.2.c1_in_waiting = 0) :=
  ⟨rfl, rfl, rfl, rfl, rfl, rfl⟩

/-- C5 (amended): when Inspector1 dispatches a finished C1 component it
enqueues it at the workstation chosen by `dispatchChoice` applied to the
three C1-waiting counts; the chosen workstation always has the fewest
waiting C1 components, but ties are broken in favour of workstation 2
(then 3): workstation 1 is chosen only when its count is strictly smallest. -/
theorem dispatch_least_loaded (i : Inspector1) (wss : WS3) (now : Time)
    (c : Component) (hheld : i.held_component = some c)
    (hfin : c.is_finished = true) (hk : c.kind = CKind.c1) :
    i.dispatch_component wss now =
      (match dispatchChoice wss.1.c1_in_waiting wss.2.1.c1_in_waiting
          wss.2.2.c1_in_waiting with
        | WSKind.w1 => (wss.1.enqueue true c now).map
            (fun rw => (rw.1, (rw.2, wss.2.1, wss.2.2)))
        | WSKind.w2 => (wss.2.1.enqueue true c now).map
            (fun rw => (rw.1, (wss.1, rw.2, wss.2.2)))
        | WSKind.w3 => (wss.2.2.enqueue true c now).map
            (fun rw => (rw.1, (wss.1, wss.2.1, rw.2)))) ∧
    (∀ a0 a1 a2 : Nat, countAt (dispatchChoice a0 a1 a2) a0 a1 a2 ≤ a0 ∧
      countAt (dispatchChoice a0 a1 a2) a0 a1 a2 ≤ a1 ∧
      countAt (dispatchChoice a0 a1 a2) a0 a1 a2 ≤ a2) ∧
    (∀ a0 a1 a2 : Nat, dispatchChoice a0 a1 a2 = WSKind.w1 → a0 < a1 ∧ a0 < a2) ∧
    (∀ a0 a1 a2 : Nat, a1 ≤ a0 → a1 ≤ a2 → dispatchChoice a0 a1 a2 = WSKind.w2) := by
  refine ⟨?_, ?_, ?_, ?_⟩
  · unfold Inspector1.dispatch_component
    rw [hheld]
    by_cases h1 : wss.1.c1_in_waiting < wss.2.1.c1_in_waiting ∧
        wss.1.c1_in_waiting < wss.2.2.c1_in_waiting
    · simp [hfin, hk, dispatchChoice, h1]
    · by_cases h2 : wss.2.1.c1_in_waiting ≤ wss.2.2.c1_in_waiting ∧
          wss.2.1.c1_in_waiting ≤ wss.1.c1_in_waiting
      · simp [hfin, hk, dispatchChoice, h1, h2]
      · have h3 : wss.2.2.c1_in_waiting ≤ wss.1.c1_in_waiting ∧
            wss.2.2.c1_in_waiting ≤ wss.2.1.c1_in_waiting := by omega
        simp [hfin, hk, dispatchChoice, h1, h2, h3]
  · intro a0 a1 a2
    unfold dispatchChoice countAt
    by_cases h1 : a0 < a1 ∧ a0 < a2
    · simp only [if_pos h1]
      omega
    · by_cases h2 : a1 ≤ a2 ∧ a1 ≤ a0
      · simp only [if_neg h1, if_pos h2]
        omega
      · simp only [if_neg h1, if_neg h2]
        omega
  · intro a0 a1 a2 h
    unfold dispatchChoice at h
    by_cases h1 : a0 < a1 ∧ a0 < a2
    · exact h1
    · rw [if_neg h1] at h
      by_cases h2 : a1 ≤ a2 ∧ a1 ≤ a0
      · rw [if_pos h2] at h
        exact WSKind.noConfusion h
      · rw [if_neg h2] at h
        exact WSKind.noConfusion h
  · intro a0 a1 a2 h10 h12
    unfold dispatchChoice
    have h1 : ¬(a0 < a1 ∧ a0 < a2) := by omega
    rw [if_neg h1, if_pos ⟨h12, h10⟩]

/-- Witness for C5: the amended dispatch theorem instantiated at a concrete
inspector holding a finished C1 component and three empty workstations. -/
theorem dispatch_least_loaded_witness :
    cIns1d.held_component = some cFinC1d ∧ cFinC1d.is_finished = true ∧
    cFinC1d.kind = CKind.c1 ∧
    (cIns1d.dispatch_component (cwEmpty1, cwEmpty2, cwEmpty3) 5 =
      (match dispatchChoice cwEmpty1.c1_in_waiting cwEmpty2.c1_in_waiting
          cwEmpty3.c1_in_waiting with
        | WSKind.w1 => (cwEmpty1.enqueue true cFinC1d 5).map
            (fun rw => (rw.1, (rw.2, cwEmpty2, cwEmpty3)))
        | WSKind.w2 => (cwEmpty2.enqueue true cFinC1d 5).map
            (fun rw => (rw.1, (cwEmpty1, rw.2, cwEmpty3)))
        | WSKind.w3 => (cwEmpty3.enqueue true cFinC1d 5).map
            (fun rw => (rw.1, (cwEmpty1, cwEmpty2, rw.2)))) ∧
      (∀ a0 a1 a2 : Nat, countAt (dispatchChoice a0 a1 a2) a0 a1 a2 ≤ a0 ∧
        countAt (dispatchChoice a0 a1 a2) a0 a1 a2 ≤ a1 ∧
        countAt (dispatchChoice a0 a1 a2) a0 a1 a2 ≤ a2) ∧
      (∀ a0 a1 a2 : Nat, dispatchChoice a0 a1 a2 = WSKind.w1 → a0 < a1 ∧ a0 < a2) ∧
      (∀ a0 a1 a2 : Nat, a1 ≤ a0 → a1 ≤ a2 → dispatchChoice a0 a1 a2 = WSKind.w2)) :=
  ⟨rfl, by decide, rfl,
    dispatch_least_loaded cIns1d (cwEmpty1, cwEmpty2, cwEmpty3) 5 cFinC1d rfl
      (by decide) rfl⟩

/-- C6: Inspector2's next-kind decision follows the four-step rule. With the
target buffer counts observable (`matching_count` defined) and every held
component finished (true whenever a decision is requested): (1) with only one
kind's supply remaining, that kind is chosen; (2) with both supplies
remaining, when exactly one kind's target buffer is completely full and no
finished component of the other kind is already held, the non-full kind is
chosen; (3) when both target buffers are completely full, no decision is
reported — and `inspect_next` then blocks the inspector; (4) otherwise the
next random variate chooses (true picks C3, false picks C2). -/
theorem decide_next_component_rule (i : Inspector2) (ws2 ws3 : Workstation)
    (n2 n3 : Nat)
    (hm2 : ws2.matching_count CKind.c2 = some n2)
    (hm3 : ws3.matching_count CKind.c3 = some n3)
    (hf2 : ∀ c, i.held_c2 = some c → c.is_finished = true)
    (hf3 : ∀ c, i.held_c3 = some c → c.is_finished = true) :
    (∀ d rest, i.durations_c2 = [] → i.durations_c3 = d :: rest →
      i.decide_next_component ws2 ws3 =
        some (some ⟨.c3, d, none, none, none⟩, { i with durations_c3 := rest })) ∧
    (∀ d rest, i.durations_c2 = d :: rest → i.durations_c3 = [] →
      i.decide_next_component ws2 ws3 =
        some (some ⟨.c2, d, none, none, none⟩, { i with durations_c2 := rest })) ∧
    (∀ d2 r2 d3 r3, i.durations_c2 = d2 :: r2 → i.durations_c3 = d3 :: r3 →
      n2 = 2 → n3 ≠ 2 → (¬∃ c, i.held_c3 = some c ∧ c.is_finished = true) →
      i.decide_next_component ws2 ws3 =
        some (some ⟨.c3, d3, none, none, none⟩, { i with durations_c3 := r3 })) ∧
    (∀ d2 r2 d3 r3, i.durations_c2 = d2 :: r2 → i.durations_c3 = d3 :: r3 →
      n3 = 2 → n2 ≠ 2 → (¬∃ c, i.held_c2 = some c ∧ c.is_finished = true) →
      i.decide_next_component ws2 ws3 =
        some (some ⟨.c2, d2, none, none, none⟩, { i with durations_c2 := r2 })) ∧
    (∀ d2 r2 d3 r3, i.durations_c2 = d2 :: r2 → i.durations_c3 = d3 :: r3 →
      n2 = 2 → n3 = 2 →
      i.decide_next_component ws2 ws3 = some (none, i) ∧
      (∀ now, i.is_blocked = false →
        i.inspect_next ws2 ws3 now =
          some (none,
            { i with
              blocked_times := i.blocked_times ++ [now]
              is_blocked := true
              next_finish_time := none }))) ∧
    (∀ d2 r2 d3 r3, i.durations_c2 = d2 :: r2 → i.durations_c3 = d3 :: r3 →
      ¬(n2 = 2 ∧ n3 ≠ 2 ∧ i.held_c3 = none) →
      ¬(n3 = 2 ∧ n2 ≠ 2 ∧ i.held_c2 = none) →
      ¬(n2 = 2 ∧ n3 = 2) →
      i.decide_next_component ws2 ws3 =
        (if (i.boolean).1 then
          some (some ⟨.c3, d3, none, none, none⟩,
            { (i.boolean).2 with durations_c3 := r3 })
        else
          some (some ⟨.c2, d2, none, none, none⟩,
            { (i.boolean).2 with durations_c2 := r2 }))) := by
  refine ⟨?_, ?_, ?_, ?_, ?_, ?_⟩
  · intro d rest hc2 hc3
    unfold Inspector2.decide_next_component
    rw [hc2, hc3]
    simp
  · intro d rest hc2 hc3
    unfold Inspector2.decide_next_component
    rw [hc2, hc3]
    simp
  · intro d2 r2 d3 r3 hc2 hc3 hn2 hn3 hno
    have hh3 : i.held_c3 = none := by
      cases hh : i.held_c3 with
      | none => rfl
      | some c => exact absurd ⟨c, hh, hf3 c hh⟩ hno
    unfold Inspector2.decide_next_component
    rw [hc2, hc3, hm2, hm3, hh3, hn2]
    simp [hn3]
  · intro d2 r2 d3 r3 hc2 hc3 hn3 hn2 hno
    have hh2 : i.held_c2 = none := by
      cases hh : i.held_c2 with
      | none => rfl
      | some c => exact absurd ⟨c, hh, hf2 c hh⟩ hno
    unfold Inspector2.decide_next_component
    rw [hc2, hc3, hm2, hm3, hh2, hn3]
    simp [hn2]
  · intro d2 r2 d3 r3 hc2 hc3 hn2 hn3
    have hdec : i.decide_next_component ws2 ws3 = some (none, i) := by
      unfold Inspector2.decide_next_component
      rw [hc2, hc3, hm2, hm3, hn2, hn3]
      simp
    refine ⟨hdec, ?_⟩
    intro now hub
    unfold Inspector2.inspect_next
    rw [hdec]
    simp [Inspector2.set_blocked, hub]
  · intro d2 r2 d3 r3 hc2 hc3 hx1 hx2 hx3
    unfold Inspector2.decide_next_component
    rw [hc2, hc3, hm2, hm3]
    have e1 : ¬(n2 = 2 ∧ ¬n3 = 2 ∧ (!i.held_c3.isSome) = true) := by
      rintro ⟨a, b, c⟩
      refine hx1 ⟨a, b, ?_⟩
      cases hh : i.held_c3 with
      | none => rfl
      | some c0 =>
        rw [hh] at c
        simp at c
    have e2 : ¬(n3 = 2 ∧ ¬n2 = 2 ∧ (!i.held_c2.isSome) = true) := by
      rintro ⟨a, b, c⟩
      refine hx2 ⟨a, b, ?_⟩
      cases hh : i.held_c2 with
      | none => rfl
      | some c0 =>
        rw [hh] at c
        simp at c
    have e3 : ¬(n3 = 2 ∧ n2 = 2) := fun h => hx3 ⟨h.2, h.1⟩
    simp only [List.length_cons, if_neg e1, if_neg e2, if_neg e3]
    simp [Inspector2.boolean, hc2, hc3]

def cIns2d : Inspector2 :=
  { Inspector2.mkNew [] [3] (fun _ => true) with is_blocked := false }

/-- Witness for C6: with an empty C2 supply and one remaining C3 inspection
duration, inspector 2 decides to inspect a C3 component (rule 1). -/
theorem decide_next_component_rule_witness :
    cwEmpty2.matching_count CKind.c2 = some 0 ∧
    cwEmpty3.matching_count CKind.c3 = some 0 ∧
    cIns2d.decide_next_component cwEmpty2 cwEmpty3 =
      some (some ⟨.c3, 3, none, none, none⟩, { cIns2d with durations_c3 := [] }) :=
  ⟨rfl, rfl,
    (decide_next_component_rule cIns2d cwEmpty2 cwEmpty3 0 0 rfl rfl
      (fun c h => Option.noConfusion h) (fun c h => Option.noConfusion h)).1 3 []
      rfl rfl⟩

def lateC : Component := ⟨.c1, 5, some 0, none, none⟩

/-- Counterexample to C7: a component whose inspection started at 0 with
assigned duration 5 can be finished at time 100 — the one-sided assert
`start + duration - now <= 1000 * EPSILON` accepts any late finish — so the
recorded `inspection_end - inspection_start` exceeds the assigned duration
by far more than the floating-point tolerance. -/
theorem finish_tolerance_counterexample :
    lateC.finish_inspecting 100 = some ⟨.c1, 5, some 0, some 100, none⟩ ∧
    (100 : ℚ) - 0 ≠ lateC.duration ∧
    (100 : ℚ) - 0 - lateC.duration > epsTol := by
  refine ⟨by decide, by decide, by decide⟩

def exactC : Component := ⟨.c1, 5, some 0, none, none⟩

/-- C7 (amended): `finish_inspecting` is fatal on an already-finished
component and on one never started; its tolerance check is one-sided — it
aborts exactly when the scheduled completion `start + duration` lies more
than `1000 * EPSILON` beyond `now` (an early finish), while any late finish
is accepted; on success the end time is recorded as `now`, so when the call
happens exactly at the scheduled completion the invariant
`end - start = duration` holds. -/
theorem finish_inspecting_contract (c : Component) (now : Time) :
    (∀ e, c.insEnd = some e → c.finish_inspecting now = none) ∧
    (c.insEnd = none → c.insStart = none → c.finish_inspecting now = none) ∧
    (∀ s, c.insEnd = none → c.insStart = some s →
      (s + c.duration - now > epsTol → c.finish_inspecting now = none) ∧
      (s + c.duration - now ≤ epsTol →
        c.finish_inspecting now = some { c with insEnd := some now }) ∧
      (now = s + c.duration →
        ∃ c', c.finish_inspecting now = some c' ∧
          c'.insEnd = some now ∧ now - s = c.duration)) := by
  refine ⟨?_, ?_, ?_⟩
  · intro e he
    simp only [Component.finish_inspecting, he]
  · intro he hs
    simp only [Component.finish_inspecting, he, hs]
  · intro s he hs
    refine ⟨?_, ?_, ?_⟩
    · intro hgt
      simp only [Component.finish_inspecting, he, hs]
      rw [if_neg (not_le.mpr hgt)]
    · intro hle
      simp only [Component.finish_inspecting, he, hs]
      rw [if_pos hle]
    · intro heq
      have hle : s + c.duration - now ≤ epsTol := by
        rw [heq]
        have h0 : s + c.duration - (s + c.duration) = 0 := by ring
        rw [h0]
        unfold epsTol
        norm_num
      refine ⟨{ c with insEnd := some now }, ?_, rfl, ?_⟩
      · simp only [Component.finish_inspecting, he, hs]
        rw [if_pos hle]
      · rw [heq]
        ring

/-- Witness for C7 (amended): the contract applied to a component started at
time 0 with duration 5, finished exactly at its scheduled completion time 5. -/
theorem finish_inspecting_contract_witness :
    exactC.insEnd = none ∧ exactC.insStart = some 0 ∧
    (5 : ℚ) = 0 + exactC.duration ∧
    ∃ c', exactC.finish_inspecting 5 = some c' ∧ c'.insEnd = some 5 ∧
      (5 : ℚ) - 0 = exactC.duration :=
  ⟨rfl, rfl, by decide,
    ((finish_inspecting_contract exactC 5).2.2 0 rfl rfl).2.2 (by decide)⟩
end Facility4005
